import Mathlib

/-!
Shallow embedding of `scripts/dtc/libfdt/mkdtboimg.py` (DTBO image
packer/unpacker) and verification of its specification claims.

Conventions of the embedding:
* Python byte strings are `List Nat` (each element a byte value).
* Python ints are `Nat`; 32-bit packing applies `% 2^32` explicitly.
* A raised Python exception is an `Except.error` carrying a `PyErr`
  that names the raise site by the error kind the spec assigns to it.
* The external collaborators (the file system's `os.path.realpath` and
  the zlib library's compress/decompress transforms) are fields of an
  `Ext` record that the embedded code receives as a parameter; the core
  logic treats their outputs as opaque bytes, exactly as the source does.
-/

deriving instance DecidableEq for Except

namespace Mkdtboimg

/-- Error kinds, one per raise site, named after the spec's error
taxonomy (section 7).  `typeError`, `keyError`, `attributeError`,
`indexError` and `structError` stand for the corresponding Python
built-in exceptions escaping from the source at the modelled site. -/
inductive PyErr where
  | invalidArgument
  | invalidState
  | missingField
  | invalidMagic
  | invalidHeaderSize
  | invalidEntryHeaderSize
  | invalidFile
  | indexOutOfRange
  | typeError
  | keyError
  | attributeError
  | indexError
  | structError
deriving DecidableEq, Repr

/-- One 32-bit word to four big-endian bytes, as `struct.pack('>I', n)`
does (values are reduced mod 2^32). -/
def pack32 (n : Nat) : List Nat :=
  [n / 16777216 % 256, n / 65536 % 256, n / 256 % 256, n % 256]

/-- Four big-endian bytes back to one word, as `struct.unpack('>I', b)`
does.  The catch-all is unreachable on the 4-byte slices the callers
supply. -/
def unpack32 : List Nat → Nat
  | a :: b :: c :: d :: _ => ((a * 256 + b) * 256 + c) * 256 + d
  | _ => 0

/-- `struct.pack('>kI', ...)`: a word list to its big-endian byte
string. -/
def packWords (ws : List Nat) : List Nat :=
  (ws.map pack32).flatten

/-- `struct.unpack('>kI', buf)`: a byte string to its word list,
consuming four bytes per word. -/
def toWords : List Nat → List Nat
  | a :: b :: c :: d :: rest => unpack32 [a, b, c, d] :: toWords rest
  | _ => []

/-- `struct.pack_into(fmt, buf, off, ...)`: splice the packed words into
the buffer at byte offset `off` (callers always stay in bounds). -/
def packInto (buf : List Nat) (off : Nat) (ws : List Nat) : List Nat :=
  buf.take off ++ packWords ws ++ buf.drop (off + 4 * ws.length)

/-- Decimal digit character, as Python's `str` of a nonnegative int
produces (`decChar d` for `d < 10`). -/
def decChar (d : Nat) : Char := Char.ofNat (48 + d)

/-- Fuel-driven decimal rendering; the fuel is always sufficient at the
call site in `pyStr`. -/
def natDigitsAux : Nat → Nat → List Char
  | 0, _ => []
  | fuel + 1, n =>
    if n < 10 then [decChar n]
    else natDigitsAux fuel (n / 10) ++ [decChar (n % 10)]

/-- Decimal digit characters of `n`, most significant first. -/
def natDigits (n : Nat) : List Char := natDigitsAux (n + 1) n

/-- Python's `str(n)` for a nonnegative int. -/
def pyStr (n : Nat) : String := ⟨natDigits n⟩

/-- Digit value of a character in the given base (decimal digits, then
lowercase and uppercase letters), as Python's `int(s, base)` accepts. -/
def digitVal (base : Nat) (c : Char) : Option Nat :=
  let v : Option Nat :=
    if 48 ≤ c.toNat ∧ c.toNat ≤ 57 then some (c.toNat - 48)
    else if 97 ≤ c.toNat ∧ c.toNat ≤ 122 then some (c.toNat - 87)
    else if 65 ≤ c.toNat ∧ c.toNat ≤ 90 then some (c.toNat - 55)
    else none
  match v with
  | some d => if d < base then some d else none
  | none => none

/-- Accumulator loop of `int(s, base)` over the digit characters. -/
def parseDigitsAux (base : Nat) (acc : Nat) : List Char → Option Nat
  | [] => some acc
  | c :: cs =>
    match digitVal base c with
    | some d => parseDigitsAux base (acc * base + d) cs
    | none => none

/-- `int(s, base)` on a plain digit string: fails on an empty string or
any non-digit character (the source never feeds it whitespace,
underscores or `0o`-style prefixes, which are not modelled). -/
def parseDigits (base : Nat) (cs : List Char) : Option Nat :=
  match cs with
  | [] => none
  | _ => parseDigitsAux base 0 cs

/-- `DtEntry.__get_number_or_prop`: rejects empty, sign-prefixed and
`/`-prefixed arguments, then converts with base 16 for a `0x`/`0X`
prefix, base 8 for a leading `0`, else base 10.  Both its own raise and
a failed `int()` conversion are Python `ValueError`s, `InvalidArgument`
in the spec's taxonomy. -/
def get_number_or_prop (s : String) : Except PyErr Nat :=
  match s.data with
  | [] => .error .invalidArgument
  | c :: cs =>
    if c = '+' ∨ c = '-' then .error .invalidArgument
    else if c = '/' then .error .invalidArgument
    else
      let r :=
        if c = '0' ∧ (cs.head? = some 'x' ∨ cs.head? = some 'X') then
          parseDigits 16 (cs.drop 1)
        else if c = '0' then parseDigits 8 (c :: cs)
        else parseDigits 10 (c :: cs)
      match r with
      | some n => .ok n
      | none => .error .invalidArgument

-- `CompressionFormat` constants.
namespace CompressionFormat

def NO_COMPRESSION : Nat := 0x00
def ZLIB_COMPRESSION : Nat := 0x01
def GZIP_COMPRESSION : Nat := 0x02

end CompressionFormat

/-- A source DT file as the builder sees it: its (pre-`realpath`) name
and its byte content. -/
structure DtFile where
  name : String
  content : List Nat
deriving DecidableEq, Repr

/-- Modelled from the spec: the external collaborators of the core —
`os.path.realpath` of the file system, and the zlib library's zlib
deflate, gzip deflate and auto-detecting inflate transforms.  The
container logic never inspects their output bytes. -/
structure Ext where
  realpath : String → String
  zlib_compress : List Nat → List Nat
  gzip_compress : List Nat → List Nat
  zlib_decompress : List Nat → List Nat

/-- Modelled from the spec: a concrete stand-in instantiation of the
external collaborators used by closed instances (the two compressors
prepend the zlib / gzip framing bytes; paths resolve to themselves). -/
def ext_model : Ext :=
  ⟨id, fun l => 120 :: 156 :: l, fun l => 31 :: 139 :: l, fun l => l.drop 2⟩

/-- `DtEntry`: one device-tree entry.  `dt_file` is `none` for entries
decoded from an existing image (the source stores Python `None`). -/
structure DtEntry where
  dt_file : Option DtFile
  dt_size : Nat
  dt_offset : Nat
  image_id : Nat
  rev : Nat
  flags : Nat
  custom0 : Nat
  custom1 : Nat
  custom2 : Nat
deriving DecidableEq, Repr

namespace DtEntry

def COMPRESSION_FORMAT_MASK : Nat := 0x0f

/-- `DtEntry.__init__` after its required-keys check: `dt_file`,
`dt_size` and `dt_offset` are stored as given; the six numeric fields
are strings converted by `__get_number_or_prop`, in source order. -/
def init (dt_file : Option DtFile) (dt_size dt_offset : Nat)
    (id rev flags custom0 custom1 custom2 : String) : Except PyErr DtEntry := do
  let i ← get_number_or_prop id
  let r ← get_number_or_prop rev
  let f ← get_number_or_prop flags
  let c0 ← get_number_or_prop custom0
  let c1 ← get_number_or_prop custom1
  let c2 ← get_number_or_prop custom2
  pure ⟨dt_file, dt_size, dt_offset, i, r, f, c0, c1, c2⟩

/-- `DtEntry.compression_info(version)`: `NO_COMPRESSION` when the
container version is 0, else the low four bits of `flags`. -/
def compression_info (e : DtEntry) (version : Nat) : Nat :=
  if version = 0 then CompressionFormat.NO_COMPRESSION
  else Nat.land e.flags COMPRESSION_FORMAT_MASK

end DtEntry

/-- `Dtbo`: container header fields, the attached/decoded entry list and
the internal metadata size (the packed metadata buffer itself is
recomputed from these by `update_metadata`). -/
structure Dtbo where
  magic : Nat
  total_size : Nat
  header_size : Nat
  dt_entry_size : Nat
  dt_entry_count : Nat
  dt_entries_offset : Nat
  page_size : Nat
  version : Nat
  dt_entries : List DtEntry
  metadata_size : Nat
deriving DecidableEq, Repr

namespace Dtbo

def DTBO_MAGIC : Nat := 0xd7b7ab1e
def ACPIO_MAGIC : Nat := 0x41435049
def DT_TABLE_HEADER_SIZE : Nat := 32
def DT_TABLE_HEADER_INTS : Nat := 8
def DT_ENTRY_HEADER_SIZE : Nat := 32
def DT_ENTRY_HEADER_INTS : Nat := 8

/-- `Dtbo.__init__` in the create branch (`page_size` given and
nonzero): an empty container whose magic is selected by `dt_type`. -/
def buildInit (dt_type : String) (page_size version : Nat) : Dtbo :=
  { magic := if dt_type = "acpi" then ACPIO_MAGIC else DTBO_MAGIC
    total_size := DT_TABLE_HEADER_SIZE
    header_size := DT_TABLE_HEADER_SIZE
    dt_entry_size := DT_ENTRY_HEADER_SIZE
    dt_entry_count := 0
    dt_entries_offset := DT_TABLE_HEADER_SIZE
    page_size := page_size
    version := version
    dt_entries := []
    metadata_size := DT_TABLE_HEADER_SIZE }

/-- `os.path.realpath(entry.dt_file.name)`; a `None` file raises a
Python `AttributeError`. -/
def entry_realpath (ext : Ext) (e : DtEntry) : Except PyErr String :=
  match e.dt_file with
  | some f => .ok (ext.realpath f.name)
  | none => .error .attributeError

/-- The scan loop of `_find_dt_entry_with_same_file` over the already
attached entries, returning the first whose resolved path equals the
target. -/
def find_go (ext : Ext) (target : String) : List DtEntry → Except PyErr (Option DtEntry)
  | [] => .ok none
  | e :: es =>
    match entry_realpath ext e with
    | .error err => .error err
    | .ok p => if p = target then .ok (some e) else find_go ext target es

/-- `Dtbo._find_dt_entry_with_same_file`. -/
def find_dt_entry_with_same_file (ext : Ext) (st : Dtbo) (dt_entry : DtEntry) :
    Except PyErr (Option DtEntry) :=
  match entry_realpath ext dt_entry with
  | .error err => .error err
  | .ok target => find_go ext target st.dt_entries

/-- `Dtbo.compress_dt_entry`.  The source builds a dict of compression
objects, CONSTRUCTS a `ValueError('Bad compression format ...')` for a
format outside the dict but never raises it, and then:
`NO_COMPRESSION` reads the file as is; the compressed formats look the
format up in the dict — for an unrecognized format that lookup raises
`KeyError` (before the file is touched); a `None` file handle raises
`AttributeError` at `read()`/`seek()`.  The returned length is the
length of the produced byte string. -/
def compress_dt_entry (ext : Ext) (compression_format : Nat)
    (dt_entry_file : Option DtFile) : Except PyErr (List Nat × Nat) :=
  if compression_format = CompressionFormat.NO_COMPRESSION then
    match dt_entry_file with
    | none => .error .attributeError
    | some f => .ok (f.content, f.content.length)
  else if compression_format = CompressionFormat.ZLIB_COMPRESSION then
    match dt_entry_file with
    | none => .error .attributeError
    | some f => let c := ext.zlib_compress f.content; .ok (c, c.length)
  else if compression_format = CompressionFormat.GZIP_COMPRESSION then
    match dt_entry_file with
    | none => .error .attributeError
    | some f => let c := ext.gzip_compress f.content; .ok (c, c.length)
  else .error .keyError

/-- Elements of the Python list handed to `add_dt_entries`: either a
real `DtEntry` or any other object (which fails the `isinstance`
check). -/
inductive AddArg where
  | entry (e : DtEntry)
  | invalid
deriving DecidableEq, Repr

/-- The `for dt_entry in dt_entries` loop of `Dtbo.add_dt_entries`,
threading the mutable container, the running payload offset and the
payload buffer.  On an exception the container is returned as mutated
so far, exactly as the Python object is left. -/
def add_dt_entries_loop (ext : Ext) :
    Dtbo → Nat → List Nat → List AddArg → Dtbo × Except PyErr (List Nat)
  | st, _, buf, [] => (st, .ok buf)
  | st, _, _, .invalid :: _ => (st, .error .invalidArgument)
  | st, dt_offset, buf, .entry d :: rest =>
    match find_dt_entry_with_same_file ext st d with
    | .error e => (st, .error e)
    | .ok found =>
      let ci := d.compression_info st.version
      let alias? : Option DtEntry :=
        match found with
        | some p => if p.compression_info st.version = ci then some p else none
        | none => none
      match alias? with
      | some p =>
        let d' := { d with dt_offset := p.dt_offset, dt_size := p.dt_size }
        let st' := { st with
          dt_entries := st.dt_entries ++ [d']
          dt_entry_count := st.dt_entry_count + 1
          metadata_size := st.metadata_size + st.dt_entry_size
          total_size := st.total_size + st.dt_entry_size }
        add_dt_entries_loop ext st' dt_offset buf rest
      | none =>
        match compress_dt_entry ext ci d.dt_file with
        | .error e => (st, .error e)
        | .ok (c, n) =>
          let d' := { d with dt_offset := dt_offset, dt_size := n }
          let st' := { st with
            dt_entries := st.dt_entries ++ [d']
            dt_entry_count := st.dt_entry_count + 1
            metadata_size := st.metadata_size + st.dt_entry_size
            total_size := st.total_size + n + st.dt_entry_size }
          add_dt_entries_loop ext st' (dt_offset + n) (buf ++ c) rest

/-- `Dtbo.add_dt_entries`: rejects an empty list, then an already
populated container, then runs the entry loop with the payload cursor
starting right after the entry table. -/
def add_dt_entries (ext : Ext) (st : Dtbo) (dt_entries : List AddArg) :
    Dtbo × Except PyErr (List Nat) :=
  if dt_entries.isEmpty then (st, .error .invalidArgument)
  else if ¬ st.dt_entries.isEmpty then (st, .error .invalidState)
  else
    add_dt_entries_loop ext st
      (st.header_size + dt_entries.length * st.dt_entry_size) [] dt_entries

/-- The eight header words in wire order, as `_update_dt_table_header`
packs them. -/
def header_words (st : Dtbo) : List Nat :=
  [st.magic, st.total_size, st.header_size, st.dt_entry_size,
   st.dt_entry_count, st.dt_entries_offset, st.page_size, st.version]

/-- The eight words of one entry header in wire order, as
`_update_dt_entry_header` packs them. -/
def dt_entry_words (e : DtEntry) : List Nat :=
  [e.dt_size, e.dt_offset, e.image_id, e.rev, e.flags,
   e.custom0, e.custom1, e.custom2]

/-- `Dtbo._update_dt_entry_header`: pack one entry header into the
metadata buffer at the given offset. -/
def update_dt_entry_header (buf : List Nat) (dt_entry : DtEntry)
    (metadata_offset : Nat) : List Nat :=
  packInto buf metadata_offset (dt_entry_words dt_entry)

/-- `Dtbo._update_dt_table_header`: pack the table header at offset 0 of
the metadata buffer. -/
def update_dt_table_header (st : Dtbo) (buf : List Nat) : List Nat :=
  packInto buf 0 (header_words st)

/-- `Dtbo._update_metadata`: allocate a `metadata_size` buffer of
spaces (byte 32), pack every entry header starting at `header_size`
advancing by `dt_entry_size`, then pack the table header at 0. -/
def update_metadata (st : Dtbo) : List Nat :=
  let buf0 := List.replicate st.metadata_size 32
  let step := fun (acc : List Nat × Nat) (e : DtEntry) =>
    (update_dt_entry_header acc.1 e acc.2, acc.2 + st.dt_entry_size)
  let buf1 := (st.dt_entries.foldl step (buf0, st.header_size)).1
  update_dt_table_header st buf1

/-- The header fields as `_read_dtbo_header` unpacks them from the
32-byte header buffer. -/
structure DtTableHeader where
  magic : Nat
  total_size : Nat
  header_size : Nat
  dt_entry_size : Nat
  dt_entry_count : Nat
  dt_entries_offset : Nat
  page_size : Nat
  version : Nat
deriving DecidableEq, Repr

/-- `Dtbo._read_dtbo_header`: unpack eight big-endian words and verify
magic, header size and entry-header size. -/
def read_dtbo_header (buf : List Nat) : Except PyErr DtTableHeader :=
  match toWords buf with
  | magic :: ts :: hs :: des :: cnt :: deo :: ps :: v :: _ =>
    if magic ≠ DTBO_MAGIC ∧ magic ≠ ACPIO_MAGIC then .error .invalidMagic
    else if hs ≠ DT_TABLE_HEADER_SIZE then .error .invalidHeaderSize
    else if des ≠ DT_ENTRY_HEADER_SIZE then .error .invalidEntryHeaderSize
    else .ok ⟨magic, ts, hs, des, cnt, deo, ps, v⟩
  | _ => .error .structError

/-- The entry-decoding loop of `_read_dt_entries_from_metadata`: slice
eight words per entry from the unpacked metadata starting at the given
word offset; `dt_size`/`dt_offset` are stored as ints, the other six
fields as `str(...)` re-parsed by the `DtEntry` constructor.  A slice
shorter than eight words would make the Python indexing raise
`IndexError` (unreachable from `read_dtbo_image`). -/
def dt_entry_of_words (ws : List Nat) : Except PyErr DtEntry :=
  match ws with
  | [s0, o0, w2, w3, w4, w5, w6, w7] =>
    DtEntry.init none s0 o0 (pyStr w2) (pyStr w3) (pyStr w4)
      (pyStr w5) (pyStr w6) (pyStr w7)
  | _ => .error .indexError

def read_dt_entries_from_metadata (words : List Nat) :
    Nat → Nat → Except PyErr (List DtEntry)
  | _, 0 => .ok []
  | offset, n + 1 =>
    match dt_entry_of_words ((words.drop offset).take 8) with
    | .error e => .error e
    | .ok d =>
      match read_dt_entries_from_metadata words (offset + 8) n with
      | .error e => .error e
      | .ok ds => .ok (d :: ds)

/-- `Dtbo._read_dtbo_image` (the parse-mode constructor): header check,
metadata-size check, one `struct.unpack` of the whole metadata, then
entry decoding.  The truncation raise in the source dies inside its own
`%` message formatting (the format string has two placeholders but the
parenthesization passes only `file_size`), so a Python `TypeError`
escapes instead of the intended `ValueError`; `struct.unpack` on a
buffer whose length differs from the format's size raises
`struct.error`. -/
def read_dtbo_image_rest (bytes : List Nat) (h : DtTableHeader) :
    Except PyErr Dtbo :=
  let file_size := bytes.length
  let metadata_size := h.header_size + h.dt_entry_count * h.dt_entry_size
  if file_size < metadata_size then .error .typeError
  else
    let num_ints := DT_TABLE_HEADER_INTS + h.dt_entry_count * DT_ENTRY_HEADER_INTS +
      (if h.dt_entries_offset > DT_TABLE_HEADER_SIZE
       then (h.dt_entries_offset - DT_TABLE_HEADER_SIZE) / 4 else 0)
    if num_ints * 4 ≠ metadata_size then .error .structError
    else
      let words := toWords (bytes.take metadata_size)
      match read_dt_entries_from_metadata words (h.dt_entries_offset / 4)
          h.dt_entry_count with
      | .error e => .error e
      | .ok entries =>
        .ok { magic := h.magic, total_size := h.total_size
              header_size := h.header_size, dt_entry_size := h.dt_entry_size
              dt_entry_count := h.dt_entry_count
              dt_entries_offset := h.dt_entries_offset
              page_size := h.page_size, version := h.version
              dt_entries := entries, metadata_size := metadata_size }

def read_dtbo_image (bytes : List Nat) : Except PyErr Dtbo :=
  if bytes.length < DT_TABLE_HEADER_SIZE then .error .invalidFile
  else
    match read_dtbo_header (bytes.take DT_TABLE_HEADER_SIZE) with
    | .error e => .error e
    | .ok h => read_dtbo_image_rest bytes h

/-- `Dtbo.extract_dt_file`.  The index check (`idx > dt_entry_count`,
note the strict comparison) is translated from the source; the provided
source file is cut off immediately after it, so the remainder is
Modelled from the spec: read `size` bytes at `offset` from the backing
image and decompress when requested and the entry's compression info
says so (Python's `dt_entries[idx]` on an out-of-range index raises
`IndexError`). -/
def extract_dt_file (ext : Ext) (st : Dtbo) (image : List Nat) (idx : Nat)
    (decompress : Bool) : Except PyErr (List Nat) :=
  if idx > st.dt_entry_count then .error .indexOutOfRange
  else
    match st.dt_entries.get? idx with
    | none => .error .indexError
    | some e =>
      let fdt := (image.drop e.dt_offset).take e.dt_size
      let ci := e.compression_info st.version
      if decompress ∧ (ci = CompressionFormat.ZLIB_COMPRESSION ∨
          ci = CompressionFormat.GZIP_COMPRESSION) then
        .ok (ext.zlib_decompress fdt)
      else .ok fdt

end Dtbo

/-! ### Byte/word packing lemmas -/

theorem unpack32_pack32 (n : Nat) : unpack32 (pack32 n) = n % 4294967296 := by
  simp only [pack32, unpack32]
  omega

theorem packWords_length (ws : List Nat) : (packWords ws).length = 4 * ws.length := by
  induction ws with
  | nil => rfl
  | cons w ws ih =>
    simp only [packWords, List.map_cons, List.flatten_cons, List.length_append] at *
    simp [pack32, ih]
    omega

theorem packWords_cons (w : Nat) (ws : List Nat) :
    packWords (w :: ws) = pack32 w ++ packWords ws := by
  simp [packWords]

theorem packWords_append (ws vs : List Nat) :
    packWords (ws ++ vs) = packWords ws ++ packWords vs := by
  simp [packWords]

theorem toWords_packWords (ws : List Nat) :
    toWords (packWords ws) = ws.map (· % 4294967296) := by
  induction ws with
  | nil => rfl
  | cons w ws ih =>
    rw [packWords_cons]
    have h4 : pack32 w ++ packWords ws =
        w / 16777216 % 256 :: (w / 65536 % 256 ::
          (w / 256 % 256 :: (w % 256 :: packWords ws))) := rfl
    rw [h4]
    simp only [toWords, List.map_cons]
    rw [ih]
    congr 1
    exact unpack32_pack32 w

theorem take_packWords_append (ws rest : List Nat) :
    (packWords ws ++ rest).take (4 * ws.length) = packWords ws := by
  rw [← packWords_length ws]
  exact List.take_left (packWords ws) rest

/-! ### Decimal string round-trip lemmas -/

theorem digitVal_decChar {d : Nat} (hd : d < 10) : digitVal 10 (decChar d) = some d := by
  interval_cases d <;> decide

theorem natDigitsAux_fuel : ∀ f₁ f₂ n, n < f₁ → n < f₂ →
    natDigitsAux f₁ n = natDigitsAux f₂ n := by
  intro f₁
  induction f₁ with
  | zero => intro f₂ n h; omega
  | succ g ih =>
    intro f₂ n h₁ h₂
    match f₂, h₂ with
    | h + 1, h₂ =>
      simp only [natDigitsAux]
      by_cases hn : n < 10
      · simp [hn]
      · simp only [hn, if_false]
        have hdiv : n / 10 < n := Nat.div_lt_self (by omega) (by omega)
        rw [ih h (n / 10) (by omega) (by omega)]

theorem natDigits_split {n : Nat} (hn : ¬ n < 10) :
    natDigits n = natDigits (n / 10) ++ [decChar (n % 10)] := by
  have hdiv : n / 10 < n := Nat.div_lt_self (by omega) (by omega)
  show natDigitsAux (n + 1) n = _
  rw [show natDigitsAux (n + 1) n =
      if n < 10 then [decChar n]
      else natDigitsAux n (n / 10) ++ [decChar (n % 10)] from rfl]
  rw [if_neg hn]
  show _ = natDigitsAux (n / 10 + 1) (n / 10) ++ [decChar (n % 10)]
  rw [natDigitsAux_fuel n (n / 10 + 1) (n / 10) (by omega) (by omega)]

theorem natDigits_small {n : Nat} (hn : n < 10) : natDigits n = [decChar n] := by
  simp [natDigits, natDigitsAux, hn]

theorem parseDigitsAux_append (b acc : Nat) (xs ys : List Char) :
    parseDigitsAux b acc (xs ++ ys) =
      match parseDigitsAux b acc xs with
      | some a => parseDigitsAux b a ys
      | none => none := by
  induction xs generalizing acc with
  | nil => simp [parseDigitsAux]
  | cons c cs ih =>
    simp only [List.cons_append, parseDigitsAux]
    cases digitVal b c with
    | none => rfl
    | some d => exact ih (acc * b + d)

theorem parseDigitsAux_natDigits (n : Nat) : ∀ acc : Nat,
    ∃ k, parseDigitsAux 10 acc (natDigits n) = some (acc * 10 ^ k + n) := by
  induction n using Nat.strong_induction_on with
  | _ n ih =>
    intro acc
    by_cases hn : n < 10
    · refine ⟨1, ?_⟩
      rw [natDigits_small hn]
      simp [parseDigitsAux, digitVal_decChar hn]
    · have hdiv : n / 10 < n := Nat.div_lt_self (by omega) (by omega)
      obtain ⟨k, hk⟩ := ih (n / 10) hdiv acc
      refine ⟨k + 1, ?_⟩
      rw [natDigits_split hn, parseDigitsAux_append, hk]
      simp only [parseDigitsAux, digitVal_decChar (Nat.mod_lt n (by omega))]
      congr 1
      ring_nf
      omega

theorem natDigits_ne_nil (n : Nat) : natDigits n ≠ [] := by
  by_cases hn : n < 10
  · rw [natDigits_small hn]; simp
  · rw [natDigits_split hn]; simp

theorem natDigits_head (n : Nat) (hn : 0 < n) :
    ∃ d t, 1 ≤ d ∧ d ≤ 9 ∧ natDigits n = decChar d :: t := by
  induction n using Nat.strong_induction_on with
  | _ n ih =>
    by_cases h10 : n < 10
    · exact ⟨n, [], by omega, by omega, natDigits_small h10⟩
    · have hdiv : n / 10 < n := Nat.div_lt_self (by omega) (by omega)
      obtain ⟨d, t, h1, h2, h3⟩ := ih (n / 10) hdiv (by omega)
      exact ⟨d, t ++ [decChar (n % 10)], h1, h2, by rw [natDigits_split h10, h3]; rfl⟩

theorem decChar_ne {d : Nat} (h1 : 1 ≤ d) (h2 : d ≤ 9) :
    decChar d ≠ '+' ∧ decChar d ≠ '-' ∧ decChar d ≠ '/' ∧ decChar d ≠ '0' := by
  interval_cases d <;> decide

/-- Python's `str` of a nonnegative int converts back to the same int
through `__get_number_or_prop` (the base-8 branch only ever sees the
single digit `"0"`). -/
theorem gnop_pyStr (n : Nat) : get_number_or_prop (pyStr n) = .ok n := by
  rcases Nat.eq_zero_or_pos n with h0 | hpos
  · subst h0; decide
  · obtain ⟨d, t, h1, h2, ht⟩ := natDigits_head n hpos
    obtain ⟨hp, hm, hs, hz⟩ := decChar_ne h1 h2
    have hdata : (pyStr n).data = decChar d :: t := by simp [pyStr, ht]
    obtain ⟨k, hk⟩ := parseDigitsAux_natDigits n 0
    simp only [get_number_or_prop, hdata]
    simp only [hp, hm, hs, hz, or_self, if_false, false_and, if_neg, not_false_iff]
    have hparse : parseDigits 10 (decChar d :: t) = some n := by
      have : decChar d :: t = natDigits n := ht.symm
      rw [this]
      have hne := natDigits_ne_nil n
      simp only [parseDigits]
      match hmm : natDigits n with
      | [] => exact absurd hmm hne
      | c :: cs =>
        rw [← hmm, hk]
        simp
    rw [hparse]

/-! ### `get_number_or_prop` error classification -/

/-- The only error `__get_number_or_prop` can raise is a `ValueError`
(`InvalidArgument` in the spec's taxonomy): both its explicit raises and
a failed `int()` conversion. -/
theorem gnop_cases (s : String) :
    (∃ n, get_number_or_prop s = .ok n) ∨
      get_number_or_prop s = .error .invalidArgument := by
  simp only [get_number_or_prop]
  match s.data with
  | [] => exact Or.inr rfl
  | c :: cs =>
    by_cases h1 : c = '+' ∨ c = '-'
    · simp [h1]
    · simp only [h1, if_false]
      by_cases h2 : c = '/'
      · simp [h2]
      · simp only [h2, if_false]
        cases hr : (if c = '0' ∧ (cs.head? = some 'x' ∨ cs.head? = some 'X') then
            parseDigits 16 (cs.drop 1)
          else if c = '0' then parseDigits 8 (c :: cs)
          else parseDigits 10 (c :: cs)) with
        | none => exact Or.inr rfl
        | some n => exact Or.inl ⟨n, rfl⟩

/-- Condition of claim C10 on one numeric argument string: empty or
sign-prefixed. -/
def signedOrEmpty (s : String) : Bool :=
  match s.data with
  | [] => true
  | c :: _ => c = '+' ∨ c = '-'

theorem gnop_signedOrEmpty {s : String} (h : signedOrEmpty s = true) :
    get_number_or_prop s = .error .invalidArgument := by
  simp only [signedOrEmpty] at h
  simp only [get_number_or_prop]
  match hd : s.data with
  | [] => rfl
  | c :: cs =>
    rw [hd] at h
    simp only [decide_eq_true_eq] at h
    simp [h]

/-! ### `DtEntry.init` lemmas -/

theorem DtEntry.init_pyStr (sz off a b c d e f : Nat) :
    DtEntry.init none sz off (pyStr a) (pyStr b) (pyStr c) (pyStr d) (pyStr e)
      (pyStr f) = .ok ⟨none, sz, off, a, b, c, d, e, f⟩ := by
  simp [DtEntry.init, gnop_pyStr, Bind.bind, Except.bind, Pure.pure, Except.pure]

theorem DtEntry.init_signedOrEmpty (df : Option DtFile) (sz off : Nat)
    (s1 s2 s3 s4 s5 s6 : String)
    (h : signedOrEmpty s1 = true ∨ signedOrEmpty s2 = true ∨
      signedOrEmpty s3 = true ∨ signedOrEmpty s4 = true ∨
      signedOrEmpty s5 = true ∨ signedOrEmpty s6 = true) :
    DtEntry.init df sz off s1 s2 s3 s4 s5 s6 = .error .invalidArgument := by
  simp only [DtEntry.init, Bind.bind, Except.bind]
  rcases gnop_cases s1 with ⟨n1, e1⟩ | e1
  case inr => simp [e1]
  rcases gnop_cases s2 with ⟨n2, e2⟩ | e2
  case inr => simp [e1, e2]
  rcases gnop_cases s3 with ⟨n3, e3⟩ | e3
  case inr => simp [e1, e2, e3]
  rcases gnop_cases s4 with ⟨n4, e4⟩ | e4
  case inr => simp [e1, e2, e3, e4]
  rcases gnop_cases s5 with ⟨n5, e5⟩ | e5
  case inr => simp [e1, e2, e3, e4, e5]
  rcases gnop_cases s6 with ⟨n6, e6⟩ | e6
  case inr => simp [e1, e2, e3, e4, e5, e6]
  exfalso
  rcases h with h | h | h | h | h | h <;>
    first
    | exact absurd (gnop_signedOrEmpty h ▸ e1) (by simp)
    | exact absurd (gnop_signedOrEmpty h ▸ e2) (by simp)
    | exact absurd (gnop_signedOrEmpty h ▸ e3) (by simp)
    | exact absurd (gnop_signedOrEmpty h ▸ e4) (by simp)
    | exact absurd (gnop_signedOrEmpty h ▸ e5) (by simp)
    | exact absurd (gnop_signedOrEmpty h ▸ e6) (by simp)

/-! ### Entry-table decode lemmas -/

/-- The entry a parse reconstructs from the packed wire image of `e`:
the eight 32-bit-reduced fields, with no backing file. -/
def wireEntry (e : DtEntry) : DtEntry :=
  ⟨none, e.dt_size % 4294967296, e.dt_offset % 4294967296,
   e.image_id % 4294967296, e.rev % 4294967296, e.flags % 4294967296,
   e.custom0 % 4294967296, e.custom1 % 4294967296, e.custom2 % 4294967296⟩

theorem read_entries_decode (es : List DtEntry) : ∀ pre : List Nat,
    Dtbo.read_dt_entries_from_metadata
      (pre ++ (es.map (fun e =>
        (Dtbo.dt_entry_words e).map (· % 4294967296))).flatten)
      pre.length es.length = .ok (es.map wireEntry) := by
  induction es with
  | nil => intro pre; rfl
  | cons e es ih =>
    intro pre
    have hassoc : pre ++ ((e :: es).map (fun x =>
        (Dtbo.dt_entry_words x).map (· % 4294967296))).flatten =
        (pre ++ (Dtbo.dt_entry_words e).map (· % 4294967296)) ++
          (es.map (fun x =>
            (Dtbo.dt_entry_words x).map (· % 4294967296))).flatten := by
      simp
    rw [hassoc]
    show Dtbo.read_dt_entries_from_metadata _ pre.length (es.length + 1) = _
    simp only [Dtbo.read_dt_entries_from_metadata]
    have hsc : ((((pre ++ (Dtbo.dt_entry_words e).map (· % 4294967296)) ++
        (es.map (fun x =>
          (Dtbo.dt_entry_words x).map (· % 4294967296))).flatten).drop
          pre.length).take 8) =
        (Dtbo.dt_entry_words e).map (· % 4294967296) := by
      rw [List.append_assoc, List.drop_left]
      exact List.take_left' (by simp [Dtbo.dt_entry_words])
    rw [hsc]
    have hdec : Dtbo.dt_entry_of_words
        ((Dtbo.dt_entry_words e).map (· % 4294967296)) = .ok (wireEntry e) := by
      show DtEntry.init none (e.dt_size % 4294967296) (e.dt_offset % 4294967296)
        (pyStr (e.image_id % 4294967296)) (pyStr (e.rev % 4294967296))
        (pyStr (e.flags % 4294967296)) (pyStr (e.custom0 % 4294967296))
        (pyStr (e.custom1 % 4294967296)) (pyStr (e.custom2 % 4294967296)) =
        .ok (wireEntry e)
      exact DtEntry.init_pyStr _ _ _ _ _ _ _ _
    rw [hdec]
    have hlen : pre.length + 8 =
        (pre ++ (Dtbo.dt_entry_words e).map (· % 4294967296)).length := by
      simp [Dtbo.dt_entry_words]
    rw [hlen, ih]
    rfl

/-! ### `update_metadata` serialization lemma -/

theorem packInto_entry_len (e : DtEntry) :
    (packWords (Dtbo.dt_entry_words e)).length = 32 := by
  rw [packWords_length]; rfl

theorem fold_write_entries (es : List DtEntry) :
    ∀ (buf : List Nat) (off : Nat),
      buf.length = off + 32 * es.length →
      ((es.foldl (fun (acc : List Nat × Nat) e =>
        (Dtbo.update_dt_entry_header acc.1 e acc.2, acc.2 + 32))
        (buf, off)).1 : List Nat) =
        buf.take off ++
          (es.map (fun e => packWords (Dtbo.dt_entry_words e))).flatten := by
  induction es with
  | nil =>
    intro buf off hlen
    simp only [List.length_nil] at hlen
    simp only [List.foldl_nil, List.map_nil, List.flatten_nil, List.append_nil]
    rw [show off = buf.length by omega, List.take_length]
  | cons e es ih =>
    intro buf off hlen
    simp only [List.length_cons] at hlen
    simp only [List.foldl_cons, List.map_cons, List.flatten_cons]
    have hb1 : Dtbo.update_dt_entry_header buf e off =
        buf.take off ++ packWords (Dtbo.dt_entry_words e) ++ buf.drop (off + 32) := by
      simp [Dtbo.update_dt_entry_header, packInto, Dtbo.dt_entry_words]
    have hofflt : off ≤ buf.length := by omega
    have hlen1 : (Dtbo.update_dt_entry_header buf e off).length =
        off + 32 + 32 * es.length := by
      rw [hb1]
      simp only [List.length_append, List.length_take, List.length_drop,
        packInto_entry_len]
      omega
    rw [ih (Dtbo.update_dt_entry_header buf e off) (off + 32) hlen1]
    have htake : (Dtbo.update_dt_entry_header buf e off).take (off + 32) =
        buf.take off ++ packWords (Dtbo.dt_entry_words e) := by
      rw [hb1]
      refine List.take_left' ?_
      simp only [List.length_append, List.length_take, packInto_entry_len]
      omega
    rw [htake, List.append_assoc]

theorem update_metadata_eq (st : Dtbo)
    (hh : st.header_size = 32) (he : st.dt_entry_size = 32)
    (hm : st.metadata_size = 32 + 32 * st.dt_entries.length) :
    Dtbo.update_metadata st =
      packWords (Dtbo.header_words st) ++
        (st.dt_entries.map (fun e => packWords (Dtbo.dt_entry_words e))).flatten := by
  simp only [Dtbo.update_metadata]
  rw [hh, he]
  rw [fold_write_entries st.dt_entries (List.replicate st.metadata_size 32) 32
    (by simp [hm])]
  simp only [Dtbo.update_dt_table_header, packInto, List.take_zero, List.nil_append]
  rw [show (0 + 4 * (Dtbo.header_words st).length) = 32 from rfl]
  refine congrArg (packWords (Dtbo.header_words st) ++ ·) ?_
  refine List.drop_left' ?_
  simp only [List.length_take, List.length_replicate]
  omega

/-! ### `add_dt_entries` loop characterization -/

/-- Pure form of the alias search when every entry has a backing file:
the first attached entry whose resolved path equals the target. -/
def findPure (ext : Ext) (target : String) (es : List DtEntry) : Option DtEntry :=
  es.find? (fun e =>
    match e.dt_file with
    | some f => decide (ext.realpath f.name = target)
    | none => false)

theorem find_go_eq (ext : Ext) (target : String) (es : List DtEntry)
    (h : ∀ e ∈ es, e.dt_file.isSome) :
    Dtbo.find_go ext target es = .ok (findPure ext target es) := by
  induction es with
  | nil => rfl
  | cons e es ih =>
    obtain ⟨f, hf⟩ := Option.isSome_iff_exists.mp (h e (by simp))
    by_cases hp : ext.realpath f.name = target
    · simp [Dtbo.find_go, Dtbo.entry_realpath, hf, findPure, List.find?_cons, hp]
    · simp only [Dtbo.find_go, Dtbo.entry_realpath, hf, if_neg hp]
      rw [ih (fun x hx => h x (by simp [hx]))]
      congr 1
      simp [findPure, List.find?_cons, hf, hp]

theorem compress_len {ext : Ext} {fmt : Nat} {file : Option DtFile}
    {c : List Nat} {n : Nat}
    (h : Dtbo.compress_dt_entry ext fmt file = .ok (c, n)) : n = c.length := by
  simp only [Dtbo.compress_dt_entry] at h
  split at h
  · cases file with
    | none => exact absurd h (by simp)
    | some f =>
      have h2 : f.content = c ∧ f.content.length = n := by simpa using h
      rw [← h2.1]
      exact h2.2.symm
  · split at h
    · cases file with
      | none => exact absurd h (by simp)
      | some f =>
        have h2 : ext.zlib_compress f.content = c ∧
            (ext.zlib_compress f.content).length = n := by simpa using h
        rw [← h2.1]
        exact h2.2.symm
    · split at h
      · cases file with
        | none => exact absurd h (by simp)
        | some f =>
          have h2 : ext.gzip_compress f.content = c ∧
              (ext.gzip_compress f.content).length = n := by simpa using h
          rw [← h2.1]
          exact h2.2.symm
      · exact absurd h (by simp)

/-- Placement of one fresh (non-aliased) entry: its payload is the
compressor output, appended at the running cursor. -/
def freshStep (ext : Ext) (version pos : Nat) (d dj : DtEntry)
    (cj : List Nat) : Prop :=
  ∃ c n, Dtbo.compress_dt_entry ext (d.compression_info version) d.dt_file =
      .ok (c, n) ∧
    dj = { d with dt_offset := pos, dt_size := n } ∧ cj = c

/-- What one iteration of the `add_dt_entries` loop does to entry `d`
given the already attached entries `prior`: alias the first entry with
the same resolved path when its compression format also matches,
otherwise compress and append fresh payload bytes. -/
def stepSpec (ext : Ext) (version pos : Nat) (prior : List DtEntry)
    (d dj : DtEntry) (cj : List Nat) : Prop :=
  ∃ tgt, Dtbo.entry_realpath ext d = .ok tgt ∧
    ((∃ p, findPure ext tgt prior = some p ∧
        p.compression_info version = d.compression_info version ∧
        dj = { d with dt_offset := p.dt_offset, dt_size := p.dt_size } ∧
        cj = []) ∨
     ((findPure ext tgt prior = none ∨
        ∃ p, findPure ext tgt prior = some p ∧
          p.compression_info version ≠ d.compression_info version) ∧
      freshStep ext version pos d dj cj))

theorem loop_cons_alias {ext : Ext} {st : Dtbo} {d p : DtEntry}
    (cursor : Nat) (buf : List Nat) (rest : List Dtbo.AddArg)
    (hfind : Dtbo.find_dt_entry_with_same_file ext st d = .ok (some p))
    (hfmt : p.compression_info st.version = d.compression_info st.version) :
    Dtbo.add_dt_entries_loop ext st cursor buf (.entry d :: rest) =
      Dtbo.add_dt_entries_loop ext
        { st with
          dt_entries := st.dt_entries ++
            [{ d with dt_offset := p.dt_offset, dt_size := p.dt_size }],
          dt_entry_count := st.dt_entry_count + 1,
          metadata_size := st.metadata_size + st.dt_entry_size,
          total_size := st.total_size + st.dt_entry_size }
        cursor buf rest := by
  simp only [Dtbo.add_dt_entries_loop, hfind, hfmt, if_true]

theorem loop_cons_fresh_none {ext : Ext} {st : Dtbo} {d : DtEntry}
    {c : List Nat} {n : Nat}
    (cursor : Nat) (buf : List Nat) (rest : List Dtbo.AddArg)
    (hfind : Dtbo.find_dt_entry_with_same_file ext st d = .ok none)
    (hcomp : Dtbo.compress_dt_entry ext (d.compression_info st.version)
      d.dt_file = .ok (c, n)) :
    Dtbo.add_dt_entries_loop ext st cursor buf (.entry d :: rest) =
      Dtbo.add_dt_entries_loop ext
        { st with
          dt_entries := st.dt_entries ++
            [{ d with dt_offset := cursor, dt_size := n }],
          dt_entry_count := st.dt_entry_count + 1,
          metadata_size := st.metadata_size + st.dt_entry_size,
          total_size := st.total_size + n + st.dt_entry_size }
        (cursor + n) (buf ++ c) rest := by
  simp only [Dtbo.add_dt_entries_loop, hfind, hcomp]

theorem loop_cons_fresh_mismatch {ext : Ext} {st : Dtbo} {d p : DtEntry}
    {c : List Nat} {n : Nat}
    (cursor : Nat) (buf : List Nat) (rest : List Dtbo.AddArg)
    (hfind : Dtbo.find_dt_entry_with_same_file ext st d = .ok (some p))
    (hfmt : p.compression_info st.version ≠ d.compression_info st.version)
    (hcomp : Dtbo.compress_dt_entry ext (d.compression_info st.version)
      d.dt_file = .ok (c, n)) :
    Dtbo.add_dt_entries_loop ext st cursor buf (.entry d :: rest) =
      Dtbo.add_dt_entries_loop ext
        { st with
          dt_entries := st.dt_entries ++
            [{ d with dt_offset := cursor, dt_size := n }],
          dt_entry_count := st.dt_entry_count + 1,
          metadata_size := st.metadata_size + st.dt_entry_size,
          total_size := st.total_size + n + st.dt_entry_size }
        (cursor + n) (buf ++ c) rest := by
  simp only [Dtbo.add_dt_entries_loop, hfind, hfmt, if_false, hcomp]

theorem loop_cons_find_err {ext : Ext} {st : Dtbo} {d : DtEntry} {e : PyErr}
    (cursor : Nat) (buf : List Nat) (rest : List Dtbo.AddArg)
    (hfind : Dtbo.find_dt_entry_with_same_file ext st d = .error e) :
    Dtbo.add_dt_entries_loop ext st cursor buf (.entry d :: rest) =
      (st, .error e) := by
  simp only [Dtbo.add_dt_entries_loop, hfind]

theorem loop_cons_comp_err_none {ext : Ext} {st : Dtbo} {d : DtEntry} {e : PyErr}
    (cursor : Nat) (buf : List Nat) (rest : List Dtbo.AddArg)
    (hfind : Dtbo.find_dt_entry_with_same_file ext st d = .ok none)
    (hcomp : Dtbo.compress_dt_entry ext (d.compression_info st.version)
      d.dt_file = .error e) :
    Dtbo.add_dt_entries_loop ext st cursor buf (.entry d :: rest) =
      (st, .error e) := by
  simp only [Dtbo.add_dt_entries_loop, hfind, hcomp]

theorem loop_cons_comp_err_mismatch {ext : Ext} {st : Dtbo} {d p : DtEntry}
    {e : PyErr}
    (cursor : Nat) (buf : List Nat) (rest : List Dtbo.AddArg)
    (hfind : Dtbo.find_dt_entry_with_same_file ext st d = .ok (some p))
    (hfmt : p.compression_info st.version ≠ d.compression_info st.version)
    (hcomp : Dtbo.compress_dt_entry ext (d.compression_info st.version)
      d.dt_file = .error e) :
    Dtbo.add_dt_entries_loop ext st cursor buf (.entry d :: rest) =
      (st, .error e) := by
  simp only [Dtbo.add_dt_entries_loop, hfind, hfmt, if_false, hcomp]

/-- Master characterization of a successful `add_dt_entries` loop run:
the attached entries `news` and per-entry payload chunks `chunks`, with
all header bookkeeping, and for every position the alias/fresh
behaviour of that iteration. -/
theorem add_loop_ok_spec (ext : Ext) (es : List DtEntry) :
    ∀ (st : Dtbo) (cursor : Nat) (buf : List Nat) (st' : Dtbo) (buf' : List Nat),
      (∀ e ∈ st.dt_entries, e.dt_file.isSome) →
      (∀ e ∈ es, e.dt_file.isSome) →
      Dtbo.add_dt_entries_loop ext st cursor buf (es.map .entry) =
        (st', .ok buf') →
      ∃ (news : List DtEntry) (chunks : List (List Nat)),
        news.length = es.length ∧ chunks.length = es.length ∧
        st'.dt_entries = st.dt_entries ++ news ∧
        buf' = buf ++ chunks.flatten ∧
        st'.magic = st.magic ∧ st'.header_size = st.header_size ∧
        st'.dt_entry_size = st.dt_entry_size ∧
        st'.dt_entries_offset = st.dt_entries_offset ∧
        st'.page_size = st.page_size ∧ st'.version = st.version ∧
        st'.dt_entry_count = st.dt_entry_count + es.length ∧
        st'.metadata_size = st.metadata_size + es.length * st.dt_entry_size ∧
        st'.total_size = st.total_size + chunks.flatten.length +
          es.length * st.dt_entry_size ∧
        ∀ (j : Nat) (hj : j < es.length) (hn : j < news.length)
            (hc : j < chunks.length),
          stepSpec ext st.version (cursor + ((chunks.take j).flatten).length)
            (st.dt_entries ++ news.take j) (es.get ⟨j, hj⟩)
            (news.get ⟨j, hn⟩) (chunks.get ⟨j, hc⟩) := by
  induction es with
  | nil =>
    intro st cursor buf st' buf' _ _ hloop
    simp only [List.map_nil, Dtbo.add_dt_entries_loop, Prod.mk.injEq,
      Except.ok.injEq] at hloop
    obtain ⟨h1, h2⟩ := hloop
    subst h1
    subst h2
    exact ⟨[], [], rfl, rfl, by simp, by simp, rfl, rfl, rfl, rfl, rfl, rfl,
      by simp, by simp, by simp, fun j hj => absurd hj (by simp)⟩
  | cons d es ih =>
    intro st cursor buf st' buf' hst hes hloop
    have hd : d.dt_file.isSome := hes d (by simp)
    obtain ⟨f, hf⟩ := Option.isSome_iff_exists.mp hd
    have hes' : ∀ e ∈ es, e.dt_file.isSome := fun x hx => hes x (by simp [hx])
    have hfind0 : Dtbo.find_dt_entry_with_same_file ext st d =
        .ok (findPure ext (ext.realpath f.name) st.dt_entries) := by
      simp only [Dtbo.find_dt_entry_with_same_file, Dtbo.entry_realpath, hf]
      exact find_go_eq ext (ext.realpath f.name) st.dt_entries hst
    have hrp : Dtbo.entry_realpath ext d = .ok (ext.realpath f.name) := by
      simp [Dtbo.entry_realpath, hf]
    rw [List.map_cons] at hloop
    cases hfp : findPure ext (ext.realpath f.name) st.dt_entries with
    | some p =>
      rw [hfp] at hfind0
      by_cases hfmt : p.compression_info st.version =
          d.compression_info st.version
      · -- alias step
        rw [loop_cons_alias cursor buf (es.map .entry) hfind0 hfmt] at hloop
        obtain ⟨news', chunks', hn1, hc1, hent, hbuf, hmag, hhs, hesz, hoff,
            hps, hver, hcnt, hmeta, htot, hstep⟩ :=
          ih _ cursor buf st' buf'
            (by
              intro x hx
              simp only [List.mem_append, List.mem_singleton] at hx
              rcases hx with hx | hx
              · exact hst x hx
              · subst hx; exact hd)
            hes' hloop
        refine ⟨{ d with dt_offset := p.dt_offset, dt_size := p.dt_size } :: news',
          [] :: chunks', by simp [hn1], by simp [hc1], ?_, ?_, hmag, hhs, hesz,
          hoff, hps, hver, ?_, ?_, ?_, ?_⟩
        · rw [hent]
          show (st.dt_entries ++
              [{ d with dt_offset := p.dt_offset, dt_size := p.dt_size }]) ++
              news' = _
          simp
        · simpa using hbuf
        · simp only [List.length_cons]
          rw [hcnt]
          show st.dt_entry_count + 1 + es.length =
            st.dt_entry_count + (es.length + 1)
          omega
        · simp only [List.length_cons]
          rw [hmeta]
          show st.metadata_size + st.dt_entry_size +
              es.length * st.dt_entry_size =
            st.metadata_size + (es.length + 1) * st.dt_entry_size
          rw [Nat.add_mul, Nat.one_mul]
          omega
        · simp only [List.length_cons]
          rw [htot]
          show st.total_size + st.dt_entry_size +
              (([] :: chunks').flatten).length +
              es.length * st.dt_entry_size =
            st.total_size + (([] :: chunks').flatten).length +
              (es.length + 1) * st.dt_entry_size
          simp only [List.flatten_cons, List.nil_append]
          rw [Nat.add_mul, Nat.one_mul]
          omega
        · intro j hj hn hc
          cases j with
          | zero =>
            refine ⟨ext.realpath f.name, hrp, Or.inl ⟨p, ?_, hfmt, rfl, rfl⟩⟩
            simpa using hfp
          | succ k =>
            have hj' : k < es.length := by simpa using hj
            have hn' : k < news'.length := by omega
            have hc' : k < chunks'.length := by omega
            have hsk := hstep k hj' hn' hc'
            simp only [List.take_succ_cons, List.get_cons_succ,
              List.flatten_cons, List.nil_append]
            rw [List.append_cons]
            exact hsk
      · -- first path match has a different format: fresh step
        cases hcomp : Dtbo.compress_dt_entry ext
            (d.compression_info st.version) d.dt_file with
        | error e2 =>
          rw [loop_cons_comp_err_mismatch cursor buf (es.map .entry) hfind0
            hfmt hcomp] at hloop
          simp at hloop
        | ok cn =>
          obtain ⟨c, n⟩ := cn
          have hnc : n = c.length := compress_len hcomp
          rw [loop_cons_fresh_mismatch cursor buf (es.map .entry) hfind0
            hfmt hcomp] at hloop
          obtain ⟨news', chunks', hn1, hc1, hent, hbuf, hmag, hhs, hesz, hoff,
              hps, hver, hcnt, hmeta, htot, hstep⟩ :=
            ih _ (cursor + n) (buf ++ c) st' buf'
              (by
                intro x hx
                simp only [List.mem_append, List.mem_singleton] at hx
                rcases hx with hx | hx
                · exact hst x hx
                · subst hx; exact hd)
              hes' hloop
          refine ⟨{ d with dt_offset := cursor, dt_size := n } :: news',
            c :: chunks', by simp [hn1], by simp [hc1], ?_, ?_, hmag, hhs, hesz,
            hoff, hps, hver, ?_, ?_, ?_, ?_⟩
          · rw [hent]
            show (st.dt_entries ++
                [{ d with dt_offset := cursor, dt_size := n }]) ++
                news' = _
            simp
          · rw [hbuf]
            simp
          · simp only [List.length_cons]
            rw [hcnt]
            show st.dt_entry_count + 1 + es.length =
              st.dt_entry_count + (es.length + 1)
            omega
          · simp only [List.length_cons]
            rw [hmeta]
            show st.metadata_size + st.dt_entry_size +
                es.length * st.dt_entry_size =
              st.metadata_size + (es.length + 1) * st.dt_entry_size
            rw [Nat.add_mul, Nat.one_mul]
            omega
          · simp only [List.length_cons]
            rw [htot]
            show st.total_size + n + st.dt_entry_size +
                (chunks'.flatten).length + es.length * st.dt_entry_size =
              st.total_size + ((c :: chunks').flatten).length +
                (es.length + 1) * st.dt_entry_size
            simp only [List.flatten_cons, List.length_append]
            rw [Nat.add_mul, Nat.one_mul]
            omega
          · intro j hj hn hc
            cases j with
            | zero =>
              exact ⟨ext.realpath f.name, hrp,
                Or.inr ⟨Or.inr ⟨p, by simpa using hfp, hfmt⟩,
                  c, n, hcomp, rfl, rfl⟩⟩
            | succ k =>
              have hj' : k < es.length := by simpa using hj
              have hn' : k < news'.length := by omega
              have hc' : k < chunks'.length := by omega
              have hsk := hstep k hj' hn' hc'
              simp only [List.take_succ_cons, List.get_cons_succ,
                List.flatten_cons, List.length_append]
              rw [List.append_cons]
              have hpos : cursor + (c.length + ((chunks'.take k).flatten).length) =
                  cursor + n + ((chunks'.take k).flatten).length := by omega
              rw [hpos]
              exact hsk
    | none =>
      rw [hfp] at hfind0
      cases hcomp : Dtbo.compress_dt_entry ext
          (d.compression_info st.version) d.dt_file with
      | error e2 =>
        rw [loop_cons_comp_err_none cursor buf (es.map .entry) hfind0
          hcomp] at hloop
        simp at hloop
      | ok cn =>
        obtain ⟨c, n⟩ := cn
        have hnc : n = c.length := compress_len hcomp
        rw [loop_cons_fresh_none cursor buf (es.map .entry) hfind0
          hcomp] at hloop
        obtain ⟨news', chunks', hn1, hc1, hent, hbuf, hmag, hhs, hesz, hoff,
            hps, hver, hcnt, hmeta, htot, hstep⟩ :=
          ih _ (cursor + n) (buf ++ c) st' buf'
            (by
              intro x hx
              simp only [List.mem_append, List.mem_singleton] at hx
              rcases hx with hx | hx
              · exact hst x hx
              · subst hx; exact hd)
            hes' hloop
        refine ⟨{ d with dt_offset := cursor, dt_size := n } :: news',
          c :: chunks', by simp [hn1], by simp [hc1], ?_, ?_, hmag, hhs, hesz,
          hoff, hps, hver, ?_, ?_, ?_, ?_⟩
        · rw [hent]
          show (st.dt_entries ++
              [{ d with dt_offset := cursor, dt_size := n }]) ++
              news' = _
          simp
        · rw [hbuf]
          simp
        · simp only [List.length_cons]
          rw [hcnt]
          show st.dt_entry_count + 1 + es.length =
            st.dt_entry_count + (es.length + 1)
          omega
        · simp only [List.length_cons]
          rw [hmeta]
          show st.metadata_size + st.dt_entry_size +
              es.length * st.dt_entry_size =
            st.metadata_size + (es.length + 1) * st.dt_entry_size
          rw [Nat.add_mul, Nat.one_mul]
          omega
        · simp only [List.length_cons]
          rw [htot]
          show st.total_size + n + st.dt_entry_size +
              (chunks'.flatten).length + es.length * st.dt_entry_size =
            st.total_size + ((c :: chunks').flatten).length +
              (es.length + 1) * st.dt_entry_size
          simp only [List.flatten_cons, List.length_append]
          rw [Nat.add_mul, Nat.one_mul]
          omega
        · intro j hj hn hc
          cases j with
          | zero =>
            exact ⟨ext.realpath f.name, hrp,
              Or.inr ⟨Or.inl (by simpa using hfp),
                c, n, hcomp, rfl, rfl⟩⟩
          | succ k =>
            have hj' : k < es.length := by simpa using hj
            have hn' : k < news'.length := by omega
            have hc' : k < chunks'.length := by omega
            have hsk := hstep k hj' hn' hc'
            simp only [List.take_succ_cons, List.get_cons_succ,
              List.flatten_cons, List.length_append]
            rw [List.append_cons]
            have hpos : cursor + (c.length + ((chunks'.take k).flatten).length) =
                cursor + n + ((chunks'.take k).flatten).length := by omega
            rw [hpos]
            exact hsk

/-- Characterization of a failing `add_dt_entries` loop run: the
container is left with exactly the k entries processed before the raise
still attached — each carrying the identity fields of the corresponding
element of the argument prefix — and `dt_entry_count`, the metadata
size and `total_size` (grown by the payload chunks emitted for that
prefix) advanced accordingly. -/
theorem add_loop_err_spec (ext : Ext) :
    ∀ (args : List Dtbo.AddArg) (st : Dtbo) (cursor : Nat) (buf : List Nat)
      (st' : Dtbo) (e : PyErr),
      Dtbo.add_dt_entries_loop ext st cursor buf args = (st', .error e) →
      ∃ (k : Nat) (pre news : List DtEntry) (chunks : List (List Nat)),
        k ≤ args.length ∧
        args.take k = pre.map .entry ∧
        pre.length = k ∧ news.length = k ∧ chunks.length = k ∧
        st'.dt_entries = st.dt_entries ++ news ∧
        st'.dt_entry_count = st.dt_entry_count + k ∧
        st'.metadata_size = st.metadata_size + k * st.dt_entry_size ∧
        st'.total_size = st.total_size + chunks.flatten.length +
          k * st.dt_entry_size ∧
        ∀ (j : Nat) (hj : j < pre.length) (hn : j < news.length),
          (news.get ⟨j, hn⟩).dt_file = (pre.get ⟨j, hj⟩).dt_file ∧
          (news.get ⟨j, hn⟩).image_id = (pre.get ⟨j, hj⟩).image_id ∧
          (news.get ⟨j, hn⟩).rev = (pre.get ⟨j, hj⟩).rev ∧
          (news.get ⟨j, hn⟩).flags = (pre.get ⟨j, hj⟩).flags ∧
          (news.get ⟨j, hn⟩).custom0 = (pre.get ⟨j, hj⟩).custom0 ∧
          (news.get ⟨j, hn⟩).custom1 = (pre.get ⟨j, hj⟩).custom1 ∧
          (news.get ⟨j, hn⟩).custom2 = (pre.get ⟨j, hj⟩).custom2 := by
  intro args
  induction args with
  | nil =>
    intro st cursor buf st' e hloop
    exact absurd hloop (by simp [Dtbo.add_dt_entries_loop])
  | cons a args ih =>
    intro st cursor buf st' e hloop
    have base : ∀ e0 : PyErr,
        (st, (Except.error e0 : Except PyErr (List Nat))) = (st', .error e) →
        ∃ (k : Nat) (pre news : List DtEntry) (chunks : List (List Nat)),
          k ≤ (a :: args).length ∧
          (a :: args).take k = pre.map .entry ∧
          pre.length = k ∧ news.length = k ∧ chunks.length = k ∧
          st'.dt_entries = st.dt_entries ++ news ∧
          st'.dt_entry_count = st.dt_entry_count + k ∧
          st'.metadata_size = st.metadata_size + k * st.dt_entry_size ∧
          st'.total_size = st.total_size + chunks.flatten.length +
            k * st.dt_entry_size ∧
          ∀ (j : Nat) (hj : j < pre.length) (hn : j < news.length),
            (news.get ⟨j, hn⟩).dt_file = (pre.get ⟨j, hj⟩).dt_file ∧
            (news.get ⟨j, hn⟩).image_id = (pre.get ⟨j, hj⟩).image_id ∧
            (news.get ⟨j, hn⟩).rev = (pre.get ⟨j, hj⟩).rev ∧
            (news.get ⟨j, hn⟩).flags = (pre.get ⟨j, hj⟩).flags ∧
            (news.get ⟨j, hn⟩).custom0 = (pre.get ⟨j, hj⟩).custom0 ∧
            (news.get ⟨j, hn⟩).custom1 = (pre.get ⟨j, hj⟩).custom1 ∧
            (news.get ⟨j, hn⟩).custom2 = (pre.get ⟨j, hj⟩).custom2 := by
      intro e0 h
      injection h with h1 h2
      subst h1
      exact ⟨0, [], [], [], by simp, by simp, rfl, rfl, rfl, by simp, by simp,
        by simp, by simp, fun j hj => absurd hj (by simp)⟩
    have step : ∀ (d d' : DtEntry) (c0 : List Nat) (st1 : Dtbo)
        (cursor' : Nat) (buf' : List Nat),
        Dtbo.add_dt_entries_loop ext st1 cursor' buf' args =
          (st', .error e) →
        st1.dt_entries = st.dt_entries ++ [d'] →
        st1.dt_entry_count = st.dt_entry_count + 1 →
        st1.metadata_size = st.metadata_size + st.dt_entry_size →
        st1.total_size = st.total_size + c0.length + st.dt_entry_size →
        st1.dt_entry_size = st.dt_entry_size →
        d'.dt_file = d.dt_file → d'.image_id = d.image_id → d'.rev = d.rev →
        d'.flags = d.flags → d'.custom0 = d.custom0 →
        d'.custom1 = d.custom1 → d'.custom2 = d.custom2 →
        ∃ (k : Nat) (pre news : List DtEntry) (chunks : List (List Nat)),
          k ≤ (Dtbo.AddArg.entry d :: args).length ∧
          (Dtbo.AddArg.entry d :: args).take k = pre.map .entry ∧
          pre.length = k ∧ news.length = k ∧ chunks.length = k ∧
          st'.dt_entries = st.dt_entries ++ news ∧
          st'.dt_entry_count = st.dt_entry_count + k ∧
          st'.metadata_size = st.metadata_size + k * st.dt_entry_size ∧
          st'.total_size = st.total_size + chunks.flatten.length +
            k * st.dt_entry_size ∧
          ∀ (j : Nat) (hj : j < pre.length) (hn : j < news.length),
            (news.get ⟨j, hn⟩).dt_file = (pre.get ⟨j, hj⟩).dt_file ∧
            (news.get ⟨j, hn⟩).image_id = (pre.get ⟨j, hj⟩).image_id ∧
            (news.get ⟨j, hn⟩).rev = (pre.get ⟨j, hj⟩).rev ∧
            (news.get ⟨j, hn⟩).flags = (pre.get ⟨j, hj⟩).flags ∧
            (news.get ⟨j, hn⟩).custom0 = (pre.get ⟨j, hj⟩).custom0 ∧
            (news.get ⟨j, hn⟩).custom1 = (pre.get ⟨j, hj⟩).custom1 ∧
            (news.get ⟨j, hn⟩).custom2 = (pre.get ⟨j, hj⟩).custom2 := by
      intro d d' c0 st1 cursor' buf' h h1 h2 h3 h4 h5 hf1 hf2 hf3 hf4 hf5
        hf6 hf7
      obtain ⟨k, pre, news, chunks, hk, htake, hpre, hnews, hchunks, hent,
          hcnt, hmeta, htot, hfields⟩ := ih st1 cursor' buf' st' e h
      refine ⟨k + 1, d :: pre, d' :: news, c0 :: chunks,
        by simp only [List.length_cons]; omega, ?_, by simp [hpre],
        by simp [hnews], by simp [hchunks], ?_, ?_, ?_, ?_, ?_⟩
      · rw [List.take_succ_cons, htake]
        rfl
      · rw [hent, h1, List.append_assoc]
        rfl
      · rw [hcnt, h2]
        omega
      · rw [hmeta, h3, h5, Nat.add_mul, Nat.one_mul]
        omega
      · rw [htot, h4, h5]
        simp only [List.flatten_cons, List.length_append]
        rw [Nat.add_mul, Nat.one_mul]
        omega
      · intro j hj hn
        cases j with
        | zero => exact ⟨hf1, hf2, hf3, hf4, hf5, hf6, hf7⟩
        | succ m =>
          simp only [List.get_cons_succ]
          exact hfields m (by simpa using hj) (by simpa using hn)
    cases a with
    | invalid =>
      simp only [Dtbo.add_dt_entries_loop] at hloop
      exact base _ hloop
    | entry d =>
      cases hfind : Dtbo.find_dt_entry_with_same_file ext st d with
      | error e2 =>
        rw [loop_cons_find_err cursor buf args hfind] at hloop
        exact base _ hloop
      | ok found =>
        cases found with
        | some p =>
          by_cases hfmt : p.compression_info st.version =
              d.compression_info st.version
          · rw [loop_cons_alias cursor buf args hfind hfmt] at hloop
            exact step d _ [] _ cursor buf hloop rfl rfl rfl rfl rfl rfl
              rfl rfl rfl rfl rfl rfl
          · cases hcomp : Dtbo.compress_dt_entry ext
                (d.compression_info st.version) d.dt_file with
            | error e2 =>
              rw [loop_cons_comp_err_mismatch cursor buf args hfind hfmt
                hcomp] at hloop
              exact base _ hloop
            | ok cn =>
              obtain ⟨c, n⟩ := cn
              have hnc : n = c.length := compress_len hcomp
              rw [loop_cons_fresh_mismatch cursor buf args hfind hfmt
                hcomp] at hloop
              refine step d _ c _ (cursor + n) (buf ++ c) hloop rfl rfl rfl
                ?_ rfl rfl rfl rfl rfl rfl rfl rfl
              show st.total_size + n + st.dt_entry_size =
                st.total_size + c.length + st.dt_entry_size
              rw [hnc]
        | none =>
          cases hcomp : Dtbo.compress_dt_entry ext
              (d.compression_info st.version) d.dt_file with
          | error e2 =>
            rw [loop_cons_comp_err_none cursor buf args hfind hcomp] at hloop
            exact base _ hloop
          | ok cn =>
            obtain ⟨c, n⟩ := cn
            have hnc : n = c.length := compress_len hcomp
            rw [loop_cons_fresh_none cursor buf args hfind hcomp] at hloop
            refine step d _ c _ (cursor + n) (buf ++ c) hloop rfl rfl rfl
              ?_ rfl rfl rfl rfl rfl rfl rfl rfl
            show st.total_size + n + st.dt_entry_size =
              st.total_size + c.length + st.dt_entry_size
            rw [hnc]

/-- Both alias and fresh placement preserve every field of the entry
except `dt_offset` and `dt_size`. -/
theorem stepSpec_fields {ext : Ext} {version pos : Nat} {prior : List DtEntry}
    {d dj : DtEntry} {cj : List Nat}
    (h : stepSpec ext version pos prior d dj cj) :
    dj.dt_file = d.dt_file ∧ dj.image_id = d.image_id ∧ dj.rev = d.rev ∧
    dj.flags = d.flags ∧ dj.custom0 = d.custom0 ∧ dj.custom1 = d.custom1 ∧
    dj.custom2 = d.custom2 := by
  obtain ⟨tgt, _, h⟩ := h
  rcases h with ⟨p, _, _, hdj, _⟩ | ⟨_, c, n, _, hdj, _⟩ <;>
    subst hdj <;> exact ⟨rfl, rfl, rfl, rfl, rfl, rfl, rfl⟩

theorem find?_eq_get {α : Type} (p : α → Bool) :
    ∀ (l : List α) (i : Nat) (hi : i < l.length),
      (∀ (k : Nat) (hk : k < l.length), k < i → p (l.get ⟨k, hk⟩) = false) →
      p (l.get ⟨i, hi⟩) = true →
      l.find? p = some (l.get ⟨i, hi⟩) := by
  intro l
  induction l with
  | nil => intro i hi; exact absurd hi (by simp)
  | cons a l ih =>
    intro i hi hbefore hp
    cases i with
    | zero =>
      simp only [List.get] at hp
      simp [List.find?_cons, hp]
    | succ k =>
      have ha : p a = false := hbefore 0 (by simp) (by omega)
      simp only [List.find?_cons, ha]
      simp only [List.get_cons_succ] at hp ⊢
      exact ih k (by simpa using hi)
        (fun m hm hmk => hbefore (m + 1) (by simpa using hm) (by omega)) hp

theorem entry_words_flat_len (ents : List DtEntry) :
    ((ents.map Dtbo.dt_entry_words).flatten).length = 8 * ents.length := by
  induction ents with
  | nil => rfl
  | cons e ents ih =>
    simp only [List.map_cons, List.flatten_cons, List.length_append, ih,
      List.length_cons]
    simp [Dtbo.dt_entry_words]
    omega

theorem packWords_flatten (l : List (List Nat)) :
    packWords l.flatten = (l.map packWords).flatten := by
  induction l with
  | nil => rfl
  | cons x l ih => simp only [List.flatten_cons, packWords_append, ih,
      List.map_cons]

/-- Generic success of the parse-mode constructor on a serialized
metadata block (valid magic, wire-sized header and entry headers)
followed by arbitrary payload bytes: every entry comes back with its
eight fields reduced mod 2^32 and no backing file. -/
theorem read_dtbo_image_ok (magic ts N ps v : Nat) (ents : List DtEntry)
    (payload : List Nat)
    (hmagic : magic = Dtbo.DTBO_MAGIC ∨ magic = Dtbo.ACPIO_MAGIC)
    (hN : N < 4294967296) (hNe : N = ents.length) :
    Dtbo.read_dtbo_image
      (packWords ([magic, ts, 32, 32, N, 32, ps, v] ++
        (ents.map Dtbo.dt_entry_words).flatten) ++ payload) =
      .ok { magic := magic, total_size := ts % 4294967296, header_size := 32,
            dt_entry_size := 32, dt_entry_count := N, dt_entries_offset := 32,
            page_size := ps % 4294967296, version := v % 4294967296,
            dt_entries := ents.map wireEntry,
            metadata_size := 32 + N * 32 } := by
  have hmagB : magic < 4294967296 := by
    rcases hmagic with h | h <;> subst h <;> decide
  have hflatlen : ((ents.map Dtbo.dt_entry_words).flatten).length =
      8 * ents.length := entry_words_flat_len ents
  have hall : packWords ([magic, ts, 32, 32, N, 32, ps, v] ++
      (ents.map Dtbo.dt_entry_words).flatten) =
      packWords [magic, ts, 32, 32, N, 32, ps, v] ++
        packWords ((ents.map Dtbo.dt_entry_words).flatten) :=
    packWords_append _ _
  have hhdrlen : (packWords [magic, ts, 32, 32, N, 32, ps, v]).length = 32 := by
    rw [packWords_length]
    rfl
  have hentlen : (packWords ((ents.map Dtbo.dt_entry_words).flatten)).length =
      32 * ents.length := by
    rw [packWords_length, hflatlen]
    omega
  have hbyteslen : (packWords ([magic, ts, 32, 32, N, 32, ps, v] ++
      (ents.map Dtbo.dt_entry_words).flatten) ++ payload).length =
      32 + 32 * ents.length + payload.length := by
    rw [hall]
    simp only [List.length_append, hhdrlen, hentlen]
  have htake32 : ((packWords ([magic, ts, 32, 32, N, 32, ps, v] ++
      (ents.map Dtbo.dt_entry_words).flatten) ++ payload)).take 32 =
      packWords [magic, ts, 32, 32, N, 32, ps, v] := by
    rw [hall, List.append_assoc]
    exact List.take_left' hhdrlen
  have hheader : Dtbo.read_dtbo_header
      (packWords [magic, ts, 32, 32, N, 32, ps, v]) =
      .ok ⟨magic, ts % 4294967296, 32, 32, N, 32, ps % 4294967296,
        v % 4294967296⟩ := by
    simp only [Dtbo.read_dtbo_header, toWords_packWords, List.map_cons,
      List.map_nil]
    rw [Nat.mod_eq_of_lt hmagB, Nat.mod_eq_of_lt hN]
    have h32 : 32 % 4294967296 = 32 := by decide
    rw [h32]
    have hmagicok : ¬ (magic ≠ Dtbo.DTBO_MAGIC ∧ magic ≠ Dtbo.ACPIO_MAGIC) := by
      rcases hmagic with h | h <;> simp [h]
    rw [if_neg hmagicok, if_neg (by decide), if_neg (by decide)]
  have htakemeta : ((packWords ([magic, ts, 32, 32, N, 32, ps, v] ++
      (ents.map Dtbo.dt_entry_words).flatten) ++ payload)).take
        (32 + N * 32) =
      packWords ([magic, ts, 32, 32, N, 32, ps, v] ++
        (ents.map Dtbo.dt_entry_words).flatten) := by
    refine List.take_left' ?_
    rw [hall]
    simp only [List.length_append, hhdrlen, hentlen]
    omega
  have hwords : toWords (packWords ([magic, ts, 32, 32, N, 32, ps, v] ++
      (ents.map Dtbo.dt_entry_words).flatten)) =
      [magic % 4294967296, ts % 4294967296, 32, 32, N, 32, ps % 4294967296,
        v % 4294967296] ++
        ((ents.map (fun e =>
          (Dtbo.dt_entry_words e).map (· % 4294967296)))).flatten := by
    rw [toWords_packWords]
    simp only [List.map_append, List.map_cons, List.map_nil]
    rw [Nat.mod_eq_of_lt hN]
    have h32 : 32 % 4294967296 = 32 := by decide
    rw [h32]
    congr 1
    rw [List.map_flatten, List.map_map]
    rfl
  have hreadents : Dtbo.read_dt_entries_from_metadata
      ([magic % 4294967296, ts % 4294967296, 32, 32, N, 32, ps % 4294967296,
        v % 4294967296] ++
        ((ents.map (fun e =>
          (Dtbo.dt_entry_words e).map (· % 4294967296)))).flatten)
      8 N = .ok (ents.map wireEntry) := by
    rw [hNe]
    have h8 : (8 : Nat) = ([magic % 4294967296, ts % 4294967296, 32, 32,
        ents.length, 32, ps % 4294967296, v % 4294967296] : List Nat).length := rfl
    rw [h8]
    exact read_entries_decode ents _
  simp only [Dtbo.read_dtbo_image, Dtbo.DT_TABLE_HEADER_SIZE]
  rw [if_neg (by rw [hbyteslen]; omega)]
  rw [htake32, hheader]
  show Dtbo.read_dtbo_image_rest _ _ = _
  simp only [Dtbo.read_dtbo_image_rest, Dtbo.DT_TABLE_HEADER_SIZE,
    Dtbo.DT_TABLE_HEADER_INTS, Dtbo.DT_ENTRY_HEADER_INTS]
  rw [if_neg (by rw [hbyteslen]; omega)]
  rw [if_neg (by decide : ¬ ((32 : Nat) > 32))]
  rw [if_neg (by omega : ¬ ((8 + N * 8 + 0) * 4 ≠ 32 + N * 32))]
  rw [show ((32 : Nat) / 4) = 8 from rfl]
  rw [htakemeta, hwords, hreadents]

theorem getD_in {α : Type} (l : List α) (i : Nat) (d : α) (h : i < l.length) :
    l.getD i d = l.get ⟨i, h⟩ := by
  simp [List.getD_eq_getElem?_getD, List.getElem?_eq_getElem h,
    List.get_eq_getElem]

theorem add_dt_entries_eq_loop (ext : Ext) (st : Dtbo)
    (args : List Dtbo.AddArg) (h1 : st.dt_entries = []) (h2 : args ≠ []) :
    Dtbo.add_dt_entries ext st args =
      Dtbo.add_dt_entries_loop ext st
        (st.header_size + args.length * st.dt_entry_size) [] args := by
  simp only [Dtbo.add_dt_entries]
  rw [if_neg (by simp [h2]), if_neg (by simp [h1])]

/-! ### Concrete scenarios used by the closed claim instances -/

/-- Default entry for `List.getD` reads that are always in bounds. -/
def dtEntry0 : DtEntry := ⟨none, 0, 0, 0, 0, 0, 0, 0, 0⟩

-- Three build entries backed by one file path: the first with zlib
-- flags, the second and third uncompressed.
def dupFileA : DtFile := ⟨"dt.img", [9, 9, 9]⟩
def dupFileB : DtFile := ⟨"dt.img", [5, 6, 7]⟩
def dupEntryA : DtEntry := ⟨some dupFileA, 3, 0, 1, 0, 1, 0, 0, 0⟩
def dupEntryB : DtEntry := ⟨some dupFileB, 3, 0, 2, 0, 0, 0, 0, 0⟩
def dupEntryC : DtEntry := ⟨some dupFileB, 3, 0, 3, 0, 0, 0, 0, 0⟩

/-- The build of the three-entry scenario under the stand-in external
collaborators, version 1. -/
def dupResult : Dtbo × Except PyErr (List Nat) :=
  Dtbo.add_dt_entries ext_model (Dtbo.buildInit "dtb" 2048 1)
    [.entry dupEntryA, .entry dupEntryB, .entry dupEntryC]

-- A parsed one-entry image: 32-byte header, one 32-byte entry header
-- (size 4, offset 64), 4 payload bytes.
def C3img : List Nat :=
  packWords [0xd7b7ab1e, 68, 32, 32, 1, 32, 2048, 0] ++
    packWords [4, 64, 1, 2, 0, 3, 4, 5] ++ [10, 20, 30, 40]

/-- The container `read_dtbo_image` produces from `C3img`. -/
def C3st : Dtbo :=
  ⟨0xd7b7ab1e, 68, 32, 32, 1, 32, 2048, 0, [⟨none, 4, 64, 1, 2, 0, 3, 4, 5⟩], 64⟩

-- A 32-byte input whose valid header declares one entry, so the
-- metadata size (64) exceeds the input length.
def C5img : List Nat := packWords [0xd7b7ab1e, 64, 32, 32, 1, 32, 2048, 0]

/-! ### Claim theorems -/

/-- C4: `compression_info(version)` returns `NO_COMPRESSION` for
version 0 regardless of the flags value, and `flags & 0x0F` for any
version ≥ 1. -/
theorem C4_version_gating (e : DtEntry) (version : Nat) :
    (version = 0 →
      e.compression_info version = CompressionFormat.NO_COMPRESSION) ∧
    (1 ≤ version → e.compression_info version = Nat.land e.flags 0x0f) := by
  constructor
  · intro h
    simp [DtEntry.compression_info, h]
  · intro h
    simp only [DtEntry.compression_info]
    rw [if_neg (by omega)]
    rfl

theorem C4_version_gating_witness :
    (⟨none, 0, 0, 0, 0, 0x17, 0, 0, 0⟩ : DtEntry).compression_info 0 =
      CompressionFormat.NO_COMPRESSION ∧
    (⟨none, 0, 0, 0, 0, 0x17, 0, 0, 0⟩ : DtEntry).compression_info 3 =
      Nat.land 0x17 0x0f :=
  ⟨(C4_version_gating ⟨none, 0, 0, 0, 0, 0x17, 0, 0, 0⟩ 0).1 rfl,
   (C4_version_gating ⟨none, 0, 0, 0, 0, 0x17, 0, 0, 0⟩ 3).2 (by omega)⟩

/-- C10: `DtEntry` construction rejects every numeric field string that
is empty or begins with an explicit sign, raising `InvalidArgument`
(`ValueError`). -/
theorem C10_sign_prefixed_rejected (dt_file : Option DtFile)
    (dt_size dt_offset : Nat) (id rev flags custom0 custom1 custom2 : String)
    (h : signedOrEmpty id = true ∨ signedOrEmpty rev = true ∨
      signedOrEmpty flags = true ∨ signedOrEmpty custom0 = true ∨
      signedOrEmpty custom1 = true ∨ signedOrEmpty custom2 = true) :
    DtEntry.init dt_file dt_size dt_offset id rev flags custom0 custom1
      custom2 = .error .invalidArgument :=
  DtEntry.init_signedOrEmpty dt_file dt_size dt_offset id rev flags custom0
    custom1 custom2 h

theorem C10_sign_prefixed_rejected_witness :
    DtEntry.init none 4 0 "0x1" "0" "-1" "0" "0" "0" =
        .error .invalidArgument ∧
    DtEntry.init none 4 0 "+5" "0" "0" "0" "0" "0" =
        .error .invalidArgument ∧
    DtEntry.init none 4 0 "1" "" "0" "0" "0" "0" =
        .error .invalidArgument :=
  ⟨C10_sign_prefixed_rejected none 4 0 "0x1" "0" "-1" "0" "0" "0"
      (Or.inr (Or.inr (Or.inl (by decide)))),
   C10_sign_prefixed_rejected none 4 0 "+5" "0" "0" "0" "0" "0"
      (Or.inl (by decide)),
   C10_sign_prefixed_rejected none 4 0 "1" "" "0" "0" "0" "0"
      (Or.inr (Or.inl (by decide)))⟩

/-- C6 (code bug): for a compression format outside
{NO_COMPRESSION, ZLIB_COMPRESSION, GZIP_COMPRESSION},
`compress_dt_entry` does NOT raise the intended
`ValueError('Bad compression format ...')` — the source constructs that
exception without `raise` — and instead dies with a `KeyError` from the
`compression_obj_dict` lookup. -/
theorem C6_unsupported_format_keyerror (ext : Ext) (fmt : Nat)
    (file : Option DtFile)
    (h0 : fmt ≠ CompressionFormat.NO_COMPRESSION)
    (h1 : fmt ≠ CompressionFormat.ZLIB_COMPRESSION)
    (h2 : fmt ≠ CompressionFormat.GZIP_COMPRESSION) :
    Dtbo.compress_dt_entry ext fmt file = .error .keyError := by
  simp only [Dtbo.compress_dt_entry]
  rw [if_neg h0, if_neg h1, if_neg h2]

theorem C6_unsupported_format_keyerror_witness :
    Dtbo.compress_dt_entry ext_model 3 (some ⟨"dt.img", [1, 2, 3]⟩) =
        .error .keyError ∧
    Dtbo.compress_dt_entry ext_model 0x0f none = .error .keyError :=
  ⟨C6_unsupported_format_keyerror ext_model 3 (some ⟨"dt.img", [1, 2, 3]⟩)
      (by decide) (by decide) (by decide),
   C6_unsupported_format_keyerror ext_model 0x0f none
      (by decide) (by decide) (by decide)⟩

/-- C5 (code bug): on an input at least one header long but shorter
than `header_size + entry_count * 32`, with a header that passes the
magic/size checks, the parse does detect the truncation, but the
`raise ValueError('Invalid or truncated DTBO file of size %d expected
%d' % file_size, ...)` in the source formats its message with only one
argument for two placeholders, so a Python `TypeError` escapes instead
of the intended `TruncatedImage` `ValueError`. -/
theorem C5_truncation_typeerror (bytes : List Nat) (h : Dtbo.DtTableHeader)
    (hlen : ¬ bytes.length < 32)
    (hhdr : Dtbo.read_dtbo_header (bytes.take 32) = .ok h)
    (htrunc : bytes.length < h.header_size + h.dt_entry_count * h.dt_entry_size) :
    Dtbo.read_dtbo_image bytes = .error .typeError := by
  simp only [Dtbo.read_dtbo_image, Dtbo.DT_TABLE_HEADER_SIZE]
  rw [if_neg hlen, hhdr]
  show Dtbo.read_dtbo_image_rest bytes h = _
  simp only [Dtbo.read_dtbo_image_rest]
  rw [if_pos htrunc]

theorem C5_truncation_typeerror_witness :
    Dtbo.read_dtbo_image C5img = .error .typeError :=
  C5_truncation_typeerror C5img ⟨0xd7b7ab1e, 64, 32, 32, 1, 32, 2048, 0⟩
    (by decide) (by decide) (by decide)

/-- C3 (code bug): the extract index check is the strict
`idx > dt_entry_count`, so the out-of-range index `idx = entry_count`
is NOT rejected with the `IndexOutOfRange` `ValueError`; on the parsed
one-entry image, extraction at index 1 passes the check and fails at
the `dt_entries[idx]` list access instead (Python `IndexError`), while
index 2 is caught by the check and index 0 extracts the payload. -/
theorem C3_extract_boundary :
    Dtbo.read_dtbo_image C3img = .ok C3st ∧
    C3st.dt_entry_count = 1 ∧
    Dtbo.extract_dt_file ext_model C3st C3img 1 false = .error .indexError ∧
    Dtbo.extract_dt_file ext_model C3st C3img 2 false =
      .error .indexOutOfRange ∧
    Dtbo.extract_dt_file ext_model C3st C3img 0 false = .ok [10, 20, 30, 40] := by
  refine ⟨?_, rfl, by decide, by decide, by decide⟩
  decide

/-- C9: the alias search considers only the FIRST previously attached
entry with the same resolved path.  In the three-entry scenario the
second and third entries share both the path and the compression
format, but the first path match (entry 0, zlib-flagged) has a
different format, so entry 2 is given a fresh offset (136, not entry
1's 133) and the raw payload is stored a second time in the returned
buffer. -/
theorem C9_alias_first_match_only :
    Dtbo.entry_realpath ext_model dupEntryB =
      Dtbo.entry_realpath ext_model dupEntryC ∧
    dupEntryB.compression_info 1 = dupEntryC.compression_info 1 ∧
    dupResult.2 = .ok ([120, 156, 9, 9, 9] ++ ([5, 6, 7] ++ [5, 6, 7])) ∧
    (dupResult.1.dt_entries.getD 1 dtEntry0).dt_offset = 133 ∧
    (dupResult.1.dt_entries.getD 2 dtEntry0).dt_offset = 136 ∧
    (dupResult.1.dt_entries.getD 2 dtEntry0).dt_offset ≠
      (dupResult.1.dt_entries.getD 1 dtEntry0).dt_offset := by
  decide

/-- C2 counterexample: in the three-entry build, entries 1 and 2 are
backed by the same resolved source path and have the same resolved
compression format, yet entry 2 does NOT receive entry 1's offset, and
payload bytes ARE appended for it (the buffer holds the raw payload
twice), because the alias search stops at the first path match (entry
0), whose format differs. -/
theorem C2_dedup_counterexample :
    Dtbo.entry_realpath ext_model dupEntryB =
      Dtbo.entry_realpath ext_model dupEntryC ∧
    dupEntryB.compression_info 1 = dupEntryC.compression_info 1 ∧
    dupResult.2 = .ok ([120, 156, 9, 9, 9] ++ ([5, 6, 7] ++ [5, 6, 7])) ∧
    ¬ ((dupResult.1.dt_entries.getD 2 dtEntry0).dt_offset =
        (dupResult.1.dt_entries.getD 1 dtEntry0).dt_offset) := by
  decide

-- A valid entry followed by a non-`DtEntry` element: the loop attaches
-- the first entry before the `isinstance` check raises on the second.
def C8entry : DtEntry := ⟨some ⟨"x.img", [1, 2]⟩, 2, 0, 7, 0, 0, 0, 0, 0⟩

def C8call : Dtbo × Except PyErr (List Nat) :=
  Dtbo.add_dt_entries ext_model (Dtbo.buildInit "dtb" 2048 0)
    [.entry C8entry, .invalid]

/-- C8 counterexample: `add_dt_entries` raises on the invalid second
element, but the container is left with the first entry attached —
entry count 1, metadata grown to 64 — not in its pre-call state. -/
theorem C8_atomicity_counterexample :
    C8call.2 = .error .invalidArgument ∧
    (Dtbo.buildInit "dtb" 2048 0).dt_entry_count = 0 ∧
    C8call.1.dt_entry_count = 1 ∧
    C8call.1.dt_entries =
      [⟨some ⟨"x.img", [1, 2]⟩, 2, 96, 7, 0, 0, 0, 0, 0⟩] ∧
    C8call.1.metadata_size = 64 := by
  decide

/-- C8 (amended): the empty-list and already-populated errors are
raised before any mutation and leave the container unchanged, but an
error raised from inside the entry loop (an invalid element, or a
failing compression) leaves the k entries already processed attached —
each attached entry carrying the identity fields of the corresponding
element of the processed argument prefix — with `dt_entry_count`,
`total_size` (grown by the payload chunks emitted for that prefix) and
the metadata size reflecting that prefix: partial-success state IS
visible after such a failure. -/
theorem C8_add_error_state (ext : Ext) (st : Dtbo) (args : List Dtbo.AddArg) :
    (Dtbo.add_dt_entries ext st [] = (st, .error .invalidArgument)) ∧
    (args ≠ [] → st.dt_entries ≠ [] →
      Dtbo.add_dt_entries ext st args = (st, .error .invalidState)) ∧
    (∀ (st' : Dtbo) (e : PyErr), st.dt_entries = [] →
      Dtbo.add_dt_entries ext st args = (st', .error e) →
      ∃ (k : Nat) (pre : List DtEntry) (chunks : List (List Nat)),
        k ≤ args.length ∧
        args.take k = pre.map .entry ∧
        pre.length = k ∧ chunks.length = k ∧
        st'.dt_entries.length = k ∧
        st'.dt_entry_count = st.dt_entry_count + k ∧
        st'.metadata_size = st.metadata_size + k * st.dt_entry_size ∧
        st'.total_size = st.total_size + chunks.flatten.length +
          k * st.dt_entry_size ∧
        ∀ j < k,
          (st'.dt_entries.getD j dtEntry0).dt_file =
            (pre.getD j dtEntry0).dt_file ∧
          (st'.dt_entries.getD j dtEntry0).image_id =
            (pre.getD j dtEntry0).image_id ∧
          (st'.dt_entries.getD j dtEntry0).rev =
            (pre.getD j dtEntry0).rev ∧
          (st'.dt_entries.getD j dtEntry0).flags =
            (pre.getD j dtEntry0).flags ∧
          (st'.dt_entries.getD j dtEntry0).custom0 =
            (pre.getD j dtEntry0).custom0 ∧
          (st'.dt_entries.getD j dtEntry0).custom1 =
            (pre.getD j dtEntry0).custom1 ∧
          (st'.dt_entries.getD j dtEntry0).custom2 =
            (pre.getD j dtEntry0).custom2) := by
  refine ⟨rfl, ?_, ?_⟩
  · intro h1 h2
    simp only [Dtbo.add_dt_entries]
    rw [if_neg (by simp [h1]), if_pos (by simp [h2])]
  · intro st' e h1 hadd
    by_cases h2 : args = []
    · subst h2
      have hbase : Dtbo.add_dt_entries ext st [] =
          (st, .error .invalidArgument) := rfl
      rw [hbase] at hadd
      injection hadd with ha hb
      subst ha
      exact ⟨0, [], [], by simp, by simp, rfl, rfl, by simp [h1], by simp,
        by simp, by simp, fun j hj => absurd hj (by omega)⟩
    · rw [add_dt_entries_eq_loop ext st args h1 h2] at hadd
      obtain ⟨k, pre, news, chunks, hk, htake, hpre, hnews, hchunks, hent,
          hcnt, hmeta, htot, hfields⟩ :=
        add_loop_err_spec ext args st _ [] st' e hadd
      have hent' : st'.dt_entries = news := by
        rw [hent, h1]
        exact List.nil_append news
      refine ⟨k, pre, chunks, hk, htake, hpre, hchunks,
        by rw [hent']; exact hnews, hcnt, hmeta, htot, ?_⟩
      intro j hjk
      have hj : j < pre.length := by omega
      have hn : j < news.length := by omega
      have hn2 : j < st'.dt_entries.length := by
        rw [hent']
        exact hn
      have hgg : st'.dt_entries.get ⟨j, hn2⟩ = news.get ⟨j, hn⟩ := by
        simp [List.get_eq_getElem, hent']
      rw [getD_in st'.dt_entries j dtEntry0 hn2, getD_in pre j dtEntry0 hj,
        hgg]
      exact hfields j hj hn

theorem C8_add_error_state_witness :
    Dtbo.add_dt_entries ext_model C3st [.invalid] =
      (C3st, .error .invalidState) ∧
    (∃ (k : Nat) (pre : List DtEntry) (chunks : List (List Nat)),
      k ≤ ([Dtbo.AddArg.entry C8entry, .invalid] : List Dtbo.AddArg).length ∧
      ([Dtbo.AddArg.entry C8entry, .invalid] : List Dtbo.AddArg).take k =
        pre.map .entry ∧
      pre.length = k ∧ chunks.length = k ∧
      C8call.1.dt_entries.length = k ∧
      C8call.1.dt_entry_count =
        (Dtbo.buildInit "dtb" 2048 0).dt_entry_count + k ∧
      C8call.1.metadata_size =
        (Dtbo.buildInit "dtb" 2048 0).metadata_size +
          k * (Dtbo.buildInit "dtb" 2048 0).dt_entry_size ∧
      C8call.1.total_size =
        (Dtbo.buildInit "dtb" 2048 0).total_size + chunks.flatten.length +
          k * (Dtbo.buildInit "dtb" 2048 0).dt_entry_size ∧
      ∀ j < k,
        (C8call.1.dt_entries.getD j dtEntry0).dt_file =
          (pre.getD j dtEntry0).dt_file ∧
        (C8call.1.dt_entries.getD j dtEntry0).image_id =
          (pre.getD j dtEntry0).image_id ∧
        (C8call.1.dt_entries.getD j dtEntry0).rev =
          (pre.getD j dtEntry0).rev ∧
        (C8call.1.dt_entries.getD j dtEntry0).flags =
          (pre.getD j dtEntry0).flags ∧
        (C8call.1.dt_entries.getD j dtEntry0).custom0 =
          (pre.getD j dtEntry0).custom0 ∧
        (C8call.1.dt_entries.getD j dtEntry0).custom1 =
          (pre.getD j dtEntry0).custom1 ∧
        (C8call.1.dt_entries.getD j dtEntry0).custom2 =
          (pre.getD j dtEntry0).custom2) :=
  ⟨(C8_add_error_state ext_model C3st [.invalid]).2.1 (by decide) (by decide),
   (C8_add_error_state ext_model (Dtbo.buildInit "dtb" 2048 0)
      [.entry C8entry, .invalid]).2.2 C8call.1 .invalidArgument rfl (by decide)⟩

theorem pred_true_iff (ext : Ext) (tgt : String) (e : DtEntry)
    (hf : e.dt_file.isSome) :
    ((fun x : DtEntry => match x.dt_file with
      | some f => decide (ext.realpath f.name = tgt)
      | none => false) e = true) ↔ Dtbo.entry_realpath ext e = .ok tgt := by
  obtain ⟨f, hf'⟩ := Option.isSome_iff_exists.mp hf
  simp [hf', Dtbo.entry_realpath]

/-- C2 (amended): dedup holds whenever the FIRST attached entry with
the same resolved path is the one with the matching format — in
particular whenever the pair's first member is the first entry with
that path.  Then the later entry receives exactly the earlier entry's
offset and size, its payload chunk is empty, and the earlier entry's
single chunk carries the payload (one stored copy). -/
theorem C2_dedup_first_path_match (ext : Ext) (dt_type : String)
    (page_size version : Nat) (es : List DtEntry) (st' : Dtbo)
    (buf : List Nat) (i j : Nat)
    (hfiles : ∀ e ∈ es, e.dt_file.isSome)
    (hadd : Dtbo.add_dt_entries ext (Dtbo.buildInit dt_type page_size version)
      (es.map .entry) = (st', .ok buf))
    (hij : i < j) (hj : j < es.length)
    (hpath : Dtbo.entry_realpath ext (es.getD i dtEntry0) =
      Dtbo.entry_realpath ext (es.getD j dtEntry0))
    (hleast : ∀ k : Nat, k < i →
      Dtbo.entry_realpath ext (es.getD k dtEntry0) ≠
        Dtbo.entry_realpath ext (es.getD j dtEntry0))
    (hfmt : (es.getD i dtEntry0).compression_info version =
      (es.getD j dtEntry0).compression_info version) :
    ∃ chunks : List (List Nat),
      st'.dt_entries.length = es.length ∧
      chunks.length = es.length ∧
      buf = chunks.flatten ∧
      (st'.dt_entries.getD j dtEntry0).dt_offset =
        (st'.dt_entries.getD i dtEntry0).dt_offset ∧
      (st'.dt_entries.getD j dtEntry0).dt_size =
        (st'.dt_entries.getD i dtEntry0).dt_size ∧
      chunks.getD j [] = [] ∧
      (chunks.getD i []).length = (st'.dt_entries.getD i dtEntry0).dt_size := by
  have hi : i < es.length := lt_trans hij hj
  have hne : es ≠ [] := by
    intro h
    rw [h] at hj
    exact absurd hj (by simp)
  rw [add_dt_entries_eq_loop ext _ _ rfl (by simpa using hne)] at hadd
  obtain ⟨news, chunks, hn1, hc1, hent, hbuf, _, _, _, _, _, _, _, _, _,
      hstep⟩ :=
    add_loop_ok_spec ext es _ _ _ st' buf
      (by intro e he; exact absurd he (by simp [Dtbo.buildInit]))
      hfiles hadd
  have hents : st'.dt_entries = news := by rw [hent]; rfl
  have hlen : st'.dt_entries.length = es.length := by rw [hents, hn1]
  have hin : i < news.length := by omega
  have hjn : j < news.length := by omega
  have hic : i < chunks.length := by omega
  have hjc : j < chunks.length := by omega
  rw [getD_in es i dtEntry0 hi, getD_in es j dtEntry0 hj] at hpath hfmt
  -- field preservation at every position
  have hfields : ∀ (k : Nat) (hk : k < es.length) (hkn : k < news.length),
      (news.get ⟨k, hkn⟩).dt_file = (es.get ⟨k, hk⟩).dt_file ∧
      (news.get ⟨k, hkn⟩).flags = (es.get ⟨k, hk⟩).flags := by
    intro k hk hkn
    have := stepSpec_fields (hstep k hk hkn (by omega))
    exact ⟨this.1, this.2.2.2.1⟩
  -- the j-th step
  obtain ⟨tgt, hrpj, hbranchj⟩ := hstep j hj hjn hjc
  have hprior : (Dtbo.buildInit dt_type page_size version).dt_entries ++
      news.take j = news.take j := rfl
  rw [hprior] at hbranchj
  have hitake : i < (news.take j).length := by
    rw [List.length_take]
    omega
  -- the first path match in the attached prefix is entry i
  have hfindj : findPure ext tgt (news.take j) =
      some ((news.take j).get ⟨i, hitake⟩) := by
    simp only [findPure]
    refine find?_eq_get _ (news.take j) i hitake ?_ ?_
    · intro k hk hki
      have hkes : k < es.length := by
        rw [List.length_take] at hk
        omega
      have hkn : k < news.length := by omega
      have hgk : (news.take j).get ⟨k, hk⟩ = news.get ⟨k, hkn⟩ := by
        simp [List.get_eq_getElem]
      rw [hgk]
      have hfk := (hfields k hkes hkn).1
      have hsome : (news.get ⟨k, hkn⟩).dt_file.isSome := by
        rw [hfk]
        exact hfiles _ (List.get_mem es k hkes)
      by_contra hcontra
      have htrue := eq_true_of_ne_false hcontra
      have hok := (pred_true_iff ext tgt (news.get ⟨k, hkn⟩) hsome).mp htrue
      have hrpeq : Dtbo.entry_realpath ext (es.get ⟨k, hkes⟩) =
          Dtbo.entry_realpath ext (news.get ⟨k, hkn⟩) := by
        simp only [Dtbo.entry_realpath, hfk]
      refine hleast k hki ?_
      rw [getD_in es k dtEntry0 hkes, getD_in es j dtEntry0 hj, hrpeq, hok,
        hrpj]
    · have hgti : (news.take j).get ⟨i, hitake⟩ = news.get ⟨i, hin⟩ := by
        simp [List.get_eq_getElem]
      rw [hgti]
      have hfi := (hfields i hi hin).1
      have hsome : (news.get ⟨i, hin⟩).dt_file.isSome := by
        rw [hfi]
        exact hfiles _ (List.get_mem es i hi)
      refine (pred_true_iff ext tgt (news.get ⟨i, hin⟩) hsome).mpr ?_
      have hrpeq : Dtbo.entry_realpath ext (news.get ⟨i, hin⟩) =
          Dtbo.entry_realpath ext (es.get ⟨i, hi⟩) := by
        simp only [Dtbo.entry_realpath, hfi]
      rw [hrpeq, hpath]
      exact hrpj
  have hgettake : (news.take j).get ⟨i, hitake⟩ = news.get ⟨i, hin⟩ := by
    simp [List.get_eq_getElem]
  -- resolve the branch at j: it must be the alias branch
  have hfmtn : (news.get ⟨i, hin⟩).compression_info
      ((Dtbo.buildInit dt_type page_size version).version) =
      ((es.get ⟨j, hj⟩) : DtEntry).compression_info
        ((Dtbo.buildInit dt_type page_size version).version) := by
    show (news.get ⟨i, hin⟩).compression_info version =
      ((es.get ⟨j, hj⟩) : DtEntry).compression_info version
    have hfi := (hfields i hi hin).2
    simp only [DtEntry.compression_info, hfi]
    exact hfmt
  have halias : (news.get ⟨j, hjn⟩) =
      { (es.get ⟨j, hj⟩) with
        dt_offset := (news.get ⟨i, hin⟩).dt_offset,
        dt_size := (news.get ⟨i, hin⟩).dt_size } ∧
      chunks.get ⟨j, hjc⟩ = [] := by
    rcases hbranchj with ⟨p, hp, hpf, hdj, hcj⟩ | ⟨hcase, _⟩
    · rw [hfindj, hgettake] at hp
      injection hp with hp
      subst hp
      exact ⟨hdj, hcj⟩
    · exfalso
      rcases hcase with hnone | ⟨p, hp, hpne⟩
      · rw [hfindj] at hnone
        exact absurd hnone (by simp)
      · rw [hfindj, hgettake] at hp
        injection hp with hp
        subst hp
        exact hpne hfmtn
  -- the i-th step: no earlier entry shares the path, so it is fresh
  obtain ⟨tgti, hrpi, hbranchi⟩ := hstep i hi hin hic
  have htgti : tgti = tgt := by
    rw [hpath, hrpj] at hrpi
    injection hrpi with h
    exact h.symm
  rw [htgti] at hbranchi
  have hpriori : (Dtbo.buildInit dt_type page_size version).dt_entries ++
      news.take i = news.take i := rfl
  rw [hpriori] at hbranchi
  have hfindi : findPure ext tgt (news.take i) = none := by
    simp only [findPure]
    rw [List.find?_eq_none]
    intro x hx
    obtain ⟨⟨k, hk⟩, hxk⟩ := List.mem_iff_get.mp hx
    have hki : k < i := by
      rw [List.length_take] at hk
      omega
    have hkes : k < es.length := by omega
    have hkn : k < news.length := by omega
    have hgk : (news.take i).get ⟨k, hk⟩ = news.get ⟨k, hkn⟩ := by
      simp [List.get_eq_getElem]
    rw [← hxk, hgk]
    have hfk := (hfields k hkes hkn).1
    have hsome : (news.get ⟨k, hkn⟩).dt_file.isSome := by
      rw [hfk]
      exact hfiles _ (List.get_mem es k hkes)
    intro htrue
    have hok := (pred_true_iff ext tgt (news.get ⟨k, hkn⟩) hsome).mp htrue
    have hrpeq : Dtbo.entry_realpath ext (es.get ⟨k, hkes⟩) =
        Dtbo.entry_realpath ext (news.get ⟨k, hkn⟩) := by
      simp only [Dtbo.entry_realpath, hfk]
    refine hleast k hki ?_
    rw [getD_in es k dtEntry0 hkes, getD_in es j dtEntry0 hj, hrpeq, hok, hrpj]
  have hfresh : ∃ c n, (news.get ⟨i, hin⟩).dt_size = n ∧
      chunks.get ⟨i, hic⟩ = c ∧ n = c.length := by
    rcases hbranchi with ⟨p, hp, _⟩ | ⟨_, c, n, hcomp, hdj, hcj⟩
    · rw [hfindi] at hp
      exact absurd hp (by simp)
    · exact ⟨c, n, by rw [hdj], hcj, compress_len hcomp⟩
  obtain ⟨c, n, hdi, hci, hnc⟩ := hfresh
  refine ⟨chunks, hlen, hc1, ?_, ?_, ?_, ?_, ?_⟩
  · rw [hbuf]
    rfl
  · rw [hents, getD_in news j dtEntry0 hjn, getD_in news i dtEntry0 hin,
      halias.1]
  · rw [hents, getD_in news j dtEntry0 hjn, getD_in news i dtEntry0 hin,
      halias.1]
  · rw [getD_in chunks j [] hjc]
    exact halias.2
  · rw [getD_in chunks i [] hic, hents, getD_in news i dtEntry0 hin, hci, hdi]
    exact hnc.symm

-- Two entries sharing file and format, no earlier path match: the
-- dedup case the amended C2 covers.
def C2es : List DtEntry := [dupEntryB, dupEntryC]

/-- Result container of building `C2es` (entry 1 aliases entry 0). -/
def C2st : Dtbo :=
  ⟨0xd7b7ab1e, 99, 32, 32, 2, 32, 2048, 1,
   [⟨some dupFileB, 3, 96, 2, 0, 0, 0, 0, 0⟩,
    ⟨some dupFileB, 3, 96, 3, 0, 0, 0, 0, 0⟩], 96⟩

theorem C2_dedup_first_path_match_witness :
    ∃ chunks : List (List Nat),
      C2st.dt_entries.length = C2es.length ∧
      chunks.length = C2es.length ∧
      [5, 6, 7] = chunks.flatten ∧
      (C2st.dt_entries.getD 1 dtEntry0).dt_offset =
        (C2st.dt_entries.getD 0 dtEntry0).dt_offset ∧
      (C2st.dt_entries.getD 1 dtEntry0).dt_size =
        (C2st.dt_entries.getD 0 dtEntry0).dt_size ∧
      chunks.getD 1 [] = [] ∧
      (chunks.getD 0 []).length = (C2st.dt_entries.getD 0 dtEntry0).dt_size :=
  C2_dedup_first_path_match ext_model "dtb" 2048 1 C2es C2st [5, 6, 7] 0 1
    (by decide) (by decide) (by decide) (by decide) (by decide)
    (by intro k hk; exact absurd hk (by omega)) (by decide)

theorem wireEntry_fields (e : DtEntry)
    (hb : e.dt_size < 4294967296 ∧ e.dt_offset < 4294967296 ∧
      e.image_id < 4294967296 ∧ e.rev < 4294967296 ∧ e.flags < 4294967296 ∧
      e.custom0 < 4294967296 ∧ e.custom1 < 4294967296 ∧
      e.custom2 < 4294967296) :
    (wireEntry e).image_id = e.image_id ∧ (wireEntry e).rev = e.rev ∧
    (wireEntry e).flags = e.flags ∧ (wireEntry e).custom0 = e.custom0 ∧
    (wireEntry e).custom1 = e.custom1 ∧ (wireEntry e).custom2 = e.custom2 ∧
    (wireEntry e).dt_size = e.dt_size := by
  obtain ⟨h1, h2, h3, h4, h5, h6, h7, h8⟩ := hb
  exact ⟨Nat.mod_eq_of_lt h3, Nat.mod_eq_of_lt h4, Nat.mod_eq_of_lt h5,
    Nat.mod_eq_of_lt h6, Nat.mod_eq_of_lt h7, Nat.mod_eq_of_lt h8,
    Nat.mod_eq_of_lt h1⟩

theorem getD_map_of_lt {α β : Type} (f : α → β) (l : List α) (k : Nat)
    (d : β) (d' : α) (h : k < l.length) :
    (l.map f).getD k d = f (l.getD k d') := by
  rw [getD_in (l.map f) k d (by simpa using h), getD_in l k d' h]
  simp [List.get_eq_getElem]

/-- C1: building an image from entries, serializing the header and
entry table with `update_metadata`, appending the payload buffer, and
parsing the result back yields a container with `entry_count = N` and,
position by position, the same (id, rev, flags, custom0-2, size) tuple
as the attached entries, which in turn carry the identity fields of the
entries supplied to `add_dt_entries` (sizes/offsets within 32 bits, as
`struct.pack` requires). -/
theorem C1_round_trip (ext : Ext) (dt_type : String)
    (page_size version : Nat) (es : List DtEntry) (st' : Dtbo)
    (buf : List Nat)
    (hfiles : ∀ e ∈ es, e.dt_file.isSome)
    (hadd : Dtbo.add_dt_entries ext (Dtbo.buildInit dt_type page_size version)
      (es.map .entry) = (st', .ok buf))
    (hN : es.length < 4294967296)
    (hbound : ∀ e ∈ st'.dt_entries,
      e.dt_size < 4294967296 ∧ e.dt_offset < 4294967296 ∧
      e.image_id < 4294967296 ∧ e.rev < 4294967296 ∧ e.flags < 4294967296 ∧
      e.custom0 < 4294967296 ∧ e.custom1 < 4294967296 ∧
      e.custom2 < 4294967296) :
    ∃ st2 : Dtbo,
      Dtbo.read_dtbo_image (Dtbo.update_metadata st' ++ buf) = .ok st2 ∧
      st2.dt_entry_count = es.length ∧
      st2.dt_entries.length = es.length ∧
      ∀ k : Nat, k < es.length →
        ((st2.dt_entries.getD k dtEntry0).image_id =
            (st'.dt_entries.getD k dtEntry0).image_id ∧
         (st2.dt_entries.getD k dtEntry0).rev =
            (st'.dt_entries.getD k dtEntry0).rev ∧
         (st2.dt_entries.getD k dtEntry0).flags =
            (st'.dt_entries.getD k dtEntry0).flags ∧
         (st2.dt_entries.getD k dtEntry0).custom0 =
            (st'.dt_entries.getD k dtEntry0).custom0 ∧
         (st2.dt_entries.getD k dtEntry0).custom1 =
            (st'.dt_entries.getD k dtEntry0).custom1 ∧
         (st2.dt_entries.getD k dtEntry0).custom2 =
            (st'.dt_entries.getD k dtEntry0).custom2 ∧
         (st2.dt_entries.getD k dtEntry0).dt_size =
            (st'.dt_entries.getD k dtEntry0).dt_size) ∧
        ((st'.dt_entries.getD k dtEntry0).image_id =
            (es.getD k dtEntry0).image_id ∧
         (st'.dt_entries.getD k dtEntry0).rev = (es.getD k dtEntry0).rev ∧
         (st'.dt_entries.getD k dtEntry0).flags = (es.getD k dtEntry0).flags ∧
         (st'.dt_entries.getD k dtEntry0).custom0 =
            (es.getD k dtEntry0).custom0 ∧
         (st'.dt_entries.getD k dtEntry0).custom1 =
            (es.getD k dtEntry0).custom1 ∧
         (st'.dt_entries.getD k dtEntry0).custom2 =
            (es.getD k dtEntry0).custom2) := by
  have hne : es ≠ [] := by
    intro h
    subst h
    simp only [List.map_nil] at hadd
    have hbase : Dtbo.add_dt_entries ext
        (Dtbo.buildInit dt_type page_size version) [] =
        (Dtbo.buildInit dt_type page_size version, .error .invalidArgument) :=
      rfl
    rw [hbase] at hadd
    injection hadd with h1 h2
    exact absurd h2 (by simp)
  rw [add_dt_entries_eq_loop ext _ _ rfl (by simpa using hne)] at hadd
  obtain ⟨news, chunks, hn1, hc1, hent, hbuf, hmag, hhs, hesz, hoff, hps,
      hver, hcnt, hmeta, htot, hstep⟩ :=
    add_loop_ok_spec ext es _ _ _ st' buf
      (by intro e he; exact absurd he (by simp [Dtbo.buildInit]))
      hfiles hadd
  have hents : st'.dt_entries = news := by rw [hent]; rfl
  have hlen' : st'.dt_entries.length = es.length := by rw [hents, hn1]
  have hh : st'.header_size = 32 := hhs
  have he : st'.dt_entry_size = 32 := hesz
  have hm : st'.metadata_size = 32 + 32 * st'.dt_entries.length := by
    rw [hmeta, hlen']
    show 32 + es.length * 32 = 32 + 32 * es.length
    omega
  have hhw : Dtbo.header_words st' = [st'.magic, st'.total_size, 32, 32,
      es.length, 32, st'.page_size, st'.version] := by
    simp only [Dtbo.header_words, hhs, hesz, hoff, hcnt, Dtbo.buildInit,
      Dtbo.DT_TABLE_HEADER_SIZE, Dtbo.DT_ENTRY_HEADER_SIZE]
    simp
  have hbytes : Dtbo.update_metadata st' ++ buf =
      packWords ([st'.magic, st'.total_size, 32, 32, es.length, 32,
        st'.page_size, st'.version] ++
        (st'.dt_entries.map Dtbo.dt_entry_words).flatten) ++ buf := by
    rw [update_metadata_eq st' hh he hm, packWords_append, packWords_flatten,
      List.map_map, hhw]
    rfl
  have hmagic : st'.magic = Dtbo.DTBO_MAGIC ∨ st'.magic = Dtbo.ACPIO_MAGIC := by
    rw [hmag]
    by_cases h : dt_type = "acpi"
    · right
      simp [Dtbo.buildInit, h]
    · left
      simp [Dtbo.buildInit, h]
  have hNe : es.length = st'.dt_entries.length := hlen'.symm
  have hread := read_dtbo_image_ok st'.magic st'.total_size es.length
    st'.page_size st'.version st'.dt_entries buf hmagic hN hNe
  refine ⟨_, by rw [hbytes, hread], rfl, by simp [hlen'], ?_⟩
  intro k hklt
  have hkst : k < st'.dt_entries.length := by omega
  have hkn : k < news.length := by omega
  have hgmap : ((st'.dt_entries.map wireEntry).getD k dtEntry0) =
      wireEntry (st'.dt_entries.getD k dtEntry0) :=
    getD_map_of_lt wireEntry st'.dt_entries k dtEntry0 dtEntry0 hkst
  have hbk := hbound (st'.dt_entries.getD k dtEntry0)
    (by rw [getD_in st'.dt_entries k dtEntry0 hkst]; exact
      List.get_mem st'.dt_entries k hkst)
  have hwf := wireEntry_fields (st'.dt_entries.getD k dtEntry0) hbk
  constructor
  · rw [hgmap]
    exact hwf
  · have hsf := stepSpec_fields (hstep k hklt hkn (by omega))
    rw [hents, getD_in news k dtEntry0 hkn, getD_in es k dtEntry0 hklt]
    exact ⟨hsf.2.1, hsf.2.2.1, hsf.2.2.2.1, hsf.2.2.2.2.1,
      hsf.2.2.2.2.2.1, hsf.2.2.2.2.2.2⟩

def C1es : List DtEntry := [dupEntryA, dupEntryB, dupEntryC]

/-- Result container of building `C1es` under the stand-in external
collaborators. -/
def C1st : Dtbo :=
  ⟨0xd7b7ab1e, 139, 32, 32, 3, 32, 2048, 1,
   [⟨some dupFileA, 5, 128, 1, 0, 1, 0, 0, 0⟩,
    ⟨some dupFileB, 3, 133, 2, 0, 0, 0, 0, 0⟩,
    ⟨some dupFileB, 3, 136, 3, 0, 0, 0, 0, 0⟩], 128⟩

def C1buf : List Nat := [120, 156, 9, 9, 9, 5, 6, 7, 5, 6, 7]

theorem C1_round_trip_witness :
    ∃ st2 : Dtbo,
      Dtbo.read_dtbo_image (Dtbo.update_metadata C1st ++ C1buf) = .ok st2 ∧
      st2.dt_entry_count = 3 ∧
      st2.dt_entries.length = 3 ∧
      ∀ k : Nat, k < 3 →
        ((st2.dt_entries.getD k dtEntry0).image_id =
            (C1st.dt_entries.getD k dtEntry0).image_id ∧
         (st2.dt_entries.getD k dtEntry0).rev =
            (C1st.dt_entries.getD k dtEntry0).rev ∧
         (st2.dt_entries.getD k dtEntry0).flags =
            (C1st.dt_entries.getD k dtEntry0).flags ∧
         (st2.dt_entries.getD k dtEntry0).custom0 =
            (C1st.dt_entries.getD k dtEntry0).custom0 ∧
         (st2.dt_entries.getD k dtEntry0).custom1 =
            (C1st.dt_entries.getD k dtEntry0).custom1 ∧
         (st2.dt_entries.getD k dtEntry0).custom2 =
            (C1st.dt_entries.getD k dtEntry0).custom2 ∧
         (st2.dt_entries.getD k dtEntry0).dt_size =
            (C1st.dt_entries.getD k dtEntry0).dt_size) ∧
        ((C1st.dt_entries.getD k dtEntry0).image_id =
            (C1es.getD k dtEntry0).image_id ∧
         (C1st.dt_entries.getD k dtEntry0).rev = (C1es.getD k dtEntry0).rev ∧
         (C1st.dt_entries.getD k dtEntry0).flags =
            (C1es.getD k dtEntry0).flags ∧
         (C1st.dt_entries.getD k dtEntry0).custom0 =
            (C1es.getD k dtEntry0).custom0 ∧
         (C1st.dt_entries.getD k dtEntry0).custom1 =
            (C1es.getD k dtEntry0).custom1 ∧
         (C1st.dt_entries.getD k dtEntry0).custom2 =
            (C1es.getD k dtEntry0).custom2) :=
  C1_round_trip ext_model "dtb" 2048 1 C1es C1st C1buf (by decide) (by decide)
    (by decide) (by decide)

end Mkdtboimg
